import Mathlib

/-!
# Multipart upload handler of `main.go`

A shallow embedding of the `POST /upload` handler registered in `main` (src/main.go,
lines 58-143) together with the properties of its multipart-upload sequencing.

The handler talks to two collaborators: the uploaded file (a Go `multipart.File`, read
through `Read`) and the S3 client `svc`.  Both are parameters of the embedding.  Every call
the handler makes is recorded, with its arguments and its result, in a chronological trace;
the `fmt.Printf` log lines and `defer file.Close()` are not modelled.
-/

namespace BucketUpload

/-! ## Data model -/

/-- A byte of the uploaded file. -/
abbrev Byte := Fin 256

/-- Result of one `file.Read(partData)` call: the contents of the buffer after the call,
the returned `bytesRead`, and whether the returned `err` is non-nil. -/
structure ReadResult where
  buf : List Byte
  n : Nat
  err : Bool
deriving DecidableEq

/-- The uploaded file as a reader with internal state `σ`: `read s p` is `Read(p)` in state
`s`, giving the result and the next state. -/
structure File (σ : Type) where
  read : σ → List Byte → ReadResult × σ

/-- The two fields of `multipart.FileHeader` the handler uses. -/
structure FileHeader where
  filename : String
  size : Int

/-- Mirror of `s3.CompletedPart`. -/
structure CompletedPart where
  eTag : String
  partNumber : Int
deriving DecidableEq

/-- The three S3 operations the handler calls, as functions of their request fields
(bucket, key, upload id, ...).  `none` and `false` stand for a non-nil `err`.  Within one run
all requests are pairwise different (one create, one upload per part number, one complete),
so a function of the request can produce any sequence of answers. -/
structure Store where
  createMultipartUpload : String → String → Option String
  uploadPart : String → String → String → Int → List Byte → Option String
  completeMultipartUpload : String → String → String → List CompletedPart → Bool

/-- One call made by the handler, with its arguments and its result.
`abortMultipartUpload` belongs to the S3 interface; the handler has no call site for it. -/
inductive Event where
  | createMultipartUpload (bucket key : String) (res : Option String)
  | read (res : ReadResult)
  | uploadPart (bucket key uploadId : String) (partNumber : Int) (body : List Byte)
      (res : Option String)
  | completeMultipartUpload (bucket key uploadId : String) (parts : List CompletedPart)
      (ok : Bool)
  | abortMultipartUpload (bucket key uploadId : String)
deriving DecidableEq

/-- What the handler writes to the `http.ResponseWriter`. -/
inductive Response where
  | error (msg : String) (code : Nat)
  | redirect (url : String) (code : Nat)
deriving DecidableEq

/-- Observable result of one run: the calls in chronological order, the HTTP response, and
`iterations`, a ghost log holding the values of `partNumber` and `completedParts` at the top
of every executed loop iteration. -/
structure Outcome where
  trace : List Event
  iterations : List (Int × List CompletedPart)
  response : Response
deriving DecidableEq

/-- The outcome `o` preceded by the calls `es` and the loop-iteration snapshots `its`. -/
def Outcome.after (es : List Event) (its : List (Int × List CompletedPart)) (o : Outcome) :
    Outcome :=
  ⟨es ++ o.trace, its ++ o.iterations, o.response⟩

/-! ## Machine integers -/

/-- Smallest `int64`. -/
def int64Min : Int := -9223372036854775808

/-- Largest `int64`. -/
def int64Max : Int := 9223372036854775807

/-- Two-complement wrap-around of an integer into `int64`. -/
def wrap64 (x : Int) : Int :=
  (x + 9223372036854775808) % 18446744073709551616 - 9223372036854775808

/-- Line 87: `partSize := int64(5 * 1024 * 1024)`. -/
def partSize : Int := wrap64 (5 * 1024 * 1024)

/-- Line 91: `numParts := (fileSize + partSize - 1) / partSize` on `int64`: wrapping
addition and subtraction, division truncating toward zero. -/
def numParts (fileSize : Int) : Int :=
  Int.tdiv (wrap64 (wrap64 (fileSize + partSize) - 1)) partSize

/-! ## The handler -/

/-- Line 96: `partData := make([]byte, partSize)`, a zeroed buffer of `partSize` bytes. -/
def partBuffer : List Byte := List.replicate partSize.toNat 0

/-- Lines 127-142: the `CompleteMultipartUpload` call and the final response. -/
def completeUpload (svc : Store) (awsBucket objectKey uploadID : String)
    (completedParts : List CompletedPart) : Outcome :=
  let ok := svc.completeMultipartUpload awsBucket objectKey uploadID completedParts
  if ok then
    ⟨[Event.completeMultipartUpload awsBucket objectKey uploadID completedParts ok], [],
      Response.redirect "/confirmation" 303⟩
  else
    ⟨[Event.completeMultipartUpload awsBucket objectKey uploadID completedParts ok], [],
      Response.error "Failed to complete multipart upload on S3" 500⟩

/-- Bookkeeping of the loop recursion: `partNumber` is at least 1, `numParts` is below the
largest `int64` (so the `int64` increment `partNumber++` never wraps), and `fuel` covers the
iterations that remain. -/
structure LoopInv (numParts partNumber : Int) (fuel : Nat) : Prop where
  lo : 1 ≤ partNumber
  hi : numParts < int64Max
  enough : (numParts + 1 - partNumber).toNat ≤ fuel

/-- Lines 95-124 followed by lines 127-142: the loop
`for partNumber := int64(1); partNumber <= numParts; partNumber++` from the top of the
iteration for `partNumber`, with the file in state `file` and the parts collected so far,
and then the completion.  The recursion is structural on `fuel`; `LoopInv` guarantees that
the guard is false when the fuel is used up, so that branch is unreachable.
`partData[:bytesRead]` is `take`, which agrees with the slice whenever `bytesRead` is within
the buffer, as the `io.Reader` contract requires. -/
def uploadLoop {σ : Type} (svc : Store) (f : File σ) (awsBucket objectKey uploadID : String)
    (numParts : Int) :
    (fuel : Nat) → (partNumber : Int) → LoopInv numParts partNumber fuel → σ →
      List CompletedPart → Outcome
  | 0, partNumber, h, _, completedParts =>
    if hg : partNumber ≤ numParts then
      absurd hg (by have := h.enough; omega)
    else
      completeUpload svc awsBucket objectKey uploadID completedParts
  | fuel + 1, partNumber, h, file, completedParts =>
    if hg : partNumber ≤ numParts then
      let partData := partBuffer
      let r := f.read file partData
      if r.1.err then
        ⟨[Event.read r.1], [(partNumber, completedParts)],
          Response.error "Failed to read file part" 500⟩
      else
        let body := r.1.buf.take r.1.n
        match svc.uploadPart awsBucket objectKey uploadID partNumber body with
        | none =>
          ⟨[Event.read r.1,
              Event.uploadPart awsBucket objectKey uploadID partNumber body none],
            [(partNumber, completedParts)],
            Response.error "Failed to upload file part to S3" 500⟩
        | some eTag =>
          (uploadLoop svc f awsBucket objectKey uploadID numParts fuel
              (wrap64 (partNumber + 1))
              (by
                have h1 := h.lo
                have h2 := h.hi
                have h3 := h.enough
                have hw : wrap64 (partNumber + 1) = partNumber + 1 := by
                  unfold wrap64
                  unfold int64Max at h2
                  omega
                rw [hw]
                exact ⟨by omega, h2, by omega⟩)
              r.2 (completedParts ++ [⟨eTag, partNumber⟩])).after
            [Event.read r.1,
              Event.uploadPart awsBucket objectKey uploadID partNumber body (some eTag)]
            [(partNumber, completedParts)]
    else
      completeUpload svc awsBucket objectKey uploadID completedParts

/-- Lines 58-143: the `POST /upload` handler.  `form` is the result of
`r.FormFile("file")`: `none` for an error, otherwise the file (its reader state) and its
header.  The loop starts at `partNumber = 1` with `numParts` iterations of fuel. -/
def uploadHandler {σ : Type} (svc : Store) (awsBucket : String) (f : File σ)
    (form : Option (σ × FileHeader)) : Outcome :=
  match form with
  | none => ⟨[], [], Response.error "Failed to read the uploaded file" 400⟩
  | some (file, header) =>
    let objectKey := header.filename
    match svc.createMultipartUpload awsBucket objectKey with
    | none =>
      ⟨[Event.createMultipartUpload awsBucket objectKey none], [],
        Response.error "Failed to create multipart upload on S3" 500⟩
    | some uploadID =>
      let fileSize := header.size
      (uploadLoop svc f awsBucket objectKey uploadID (numParts fileSize)
          (numParts fileSize).toNat 1
          (by
            refine ⟨le_refl 1, ?_, by omega⟩
            unfold numParts partSize
            have h5 : wrap64 (5 * 1024 * 1024) = 5242880 := by
              unfold wrap64
              norm_num
            rw [h5]
            have h1 : wrap64 (wrap64 (fileSize + 5242880) - 1) ≤ 9223372036854775807 := by
              unfold wrap64
              omega
            generalize wrap64 (wrap64 (fileSize + 5242880) - 1) = x at h1
            unfold int64Max
            rcases le_or_lt 0 x with hx | hx
            · rw [Int.tdiv_eq_ediv hx (by norm_num)]
              omega
            · have h2 : 0 ≤ Int.tdiv (-x) 5242880 :=
                Int.tdiv_nonneg (by omega) (by norm_num)
              rw [Int.neg_tdiv] at h2
              omega)
          file []).after
        [Event.createMultipartUpload awsBucket objectKey (some uploadID)] []

/-! ## Observations on a trace -/

/-- A call that returned an error. -/
def Event.failed : Event → Bool
  | .createMultipartUpload _ _ res => res.isNone
  | .read res => res.err
  | .uploadPart _ _ _ _ _ res => res.isNone
  | .completeMultipartUpload _ _ _ _ ok => !ok
  | .abortMultipartUpload _ _ _ => false

/-- A `Read` or an `UploadPart` call: the two calls of the loop body. -/
def Event.isTransfer : Event → Bool
  | .read _ => true
  | .uploadPart _ _ _ _ _ _ => true
  | _ => false

/-- A `CompleteMultipartUpload` call. -/
def Event.isComplete : Event → Bool
  | .completeMultipartUpload _ _ _ _ _ => true
  | _ => false

/-- An `AbortMultipartUpload` call. -/
def Event.isAbort : Event → Bool
  | .abortMultipartUpload _ _ _ => true
  | _ => false

/-- Bodies of the `UploadPart` calls, in call order. -/
def uploadBodies (t : List Event) : List (List Byte) :=
  t.filterMap fun e =>
    match e with
    | .uploadPart _ _ _ _ body _ => some body
    | _ => none

/-- Part numbers of the `UploadPart` calls, in call order. -/
def uploadPartNumbers (t : List Event) : List Int :=
  t.filterMap fun e =>
    match e with
    | .uploadPart _ _ _ pn _ _ => some pn
    | _ => none

/-- For every `UploadPart` call that succeeded, its part number paired with the tag the
store returned, in call order. -/
def uploadedParts (t : List Event) : List CompletedPart :=
  t.filterMap fun e =>
    match e with
    | .uploadPart _ _ _ pn _ (some eTag) => some ⟨eTag, pn⟩
    | _ => none

/-- Results of the `Read` calls, in call order. -/
def readResults (t : List Event) : List ReadResult :=
  t.filterMap fun e =>
    match e with
    | .read r => some r
    | _ => none

/-- Part lists submitted to `CompleteMultipartUpload`, one per call. -/
def completeCalls (t : List Event) : List (List CompletedPart) :=
  t.filterMap fun e =>
    match e with
    | .completeMultipartUpload _ _ _ parts _ => some parts
    | _ => none

/-- Number of `AbortMultipartUpload` calls. -/
def abortCalls (t : List Event) : Nat :=
  t.countP Event.isAbort

/-- The calls made to the object store (everything but the reads of the file). -/
def storeCalls (t : List Event) : List Event :=
  t.filter fun e =>
    match e with
    | .read _ => false
    | _ => true

/-- The bytes a read returned: the first `n` bytes of the buffer. -/
def ReadResult.bytes (r : ReadResult) : List Byte := r.buf.take r.n

/-- An operation without its payload and result: which call, for which session and part. -/
inductive Op where
  | createMultipartUpload (bucket key : String)
  | read
  | uploadPart (bucket key uploadId : String) (partNumber : Int)
  | completeMultipartUpload (bucket key uploadId : String)
  | abortMultipartUpload (bucket key uploadId : String)
deriving DecidableEq

/-- The operation of a recorded call. -/
def Event.op : Event → Op
  | .createMultipartUpload b k _ => .createMultipartUpload b k
  | .read _ => .read
  | .uploadPart b k u pn _ _ => .uploadPart b k u pn
  | .completeMultipartUpload b k u _ _ => .completeMultipartUpload b k u
  | .abortMultipartUpload b k u => .abortMultipartUpload b k u

/-- The integers `lo, lo + 1, ..., hi` (empty when `hi < lo`). -/
def partRange (lo hi : Int) : List Int :=
  (List.range (hi + 1 - lo).toNat).map fun (i : Nat) => lo + (i : Int)

/-- Operations of the loop from part `lo` to part `hi` followed by the completion: for each
part one read and then one upload, and one `CompleteMultipartUpload` at the end. -/
def loopOps (b k u : String) (lo hi : Int) : List Op :=
  (partRange lo hi).flatMap (fun pn => [Op.read, Op.uploadPart b k u pn])
    ++ [Op.completeMultipartUpload b k u]

/-- Operations of a complete run with `n` parts: one create, the loop, one complete. -/
def expectedOps (b k u : String) (n : Int) : List Op :=
  Op.createMultipartUpload b k :: loopOps b k u 1 n

/-! ## Hypotheses on the collaborators -/

/-- A source holding `remaining s` unread bytes in state `s` whose every read fills the
buffer unless the stream ends: while bytes remain a read returns `min (len p) (remaining s)`
bytes, consumes exactly those and leaves the length of the buffer unchanged.  A Go reader
reports the end of the stream through a non-nil `err` (`io.EOF`), so while bytes remain the
stream has not ended and `err` is nil; the `multipart.File` implementations (`*os.File`,
`*io.SectionReader`) return `io.EOF` only from a read that finds no byte left. -/
structure FillsBuffer {σ : Type} (f : File σ) (remaining : σ → Nat) : Prop where
  err : ∀ s p, 0 < remaining s → (f.read s p).1.err = false
  n : ∀ s p, 0 < remaining s → (f.read s p).1.n = min p.length (remaining s)
  buf : ∀ s p, 0 < remaining s → (f.read s p).1.buf.length = p.length
  rest : ∀ s p, 0 < remaining s →
    remaining (f.read s p).2 = remaining s - min p.length (remaining s)

/-- A store whose calls all succeed. -/
structure StoreSucceeds (svc : Store) : Prop where
  create : ∀ b k, (svc.createMultipartUpload b k).isSome = true
  upload : ∀ b k u pn body, (svc.uploadPart b k u pn body).isSome = true
  complete : ∀ b k u parts, svc.completeMultipartUpload b k u parts = true

/-! ## Concrete collaborators used in the examples -/

/-- A file of zero bytes, its state being the number of bytes not yet read.  A read fills
the buffer as far as bytes remain; at the end of the file it returns 0 bytes and `io.EOF`. -/
def zeroFile : File Nat where
  read s p :=
    if s = 0 then (⟨p, 0, true⟩, 0)
    else (⟨List.replicate (min p.length s) 0 ++ p.drop (min p.length s), min p.length s,
      false⟩, s - min p.length s)

/-- A file of zero bytes that delivers one byte per read, like a slow source: a read into a
non-empty buffer stores one byte at its front and returns 1 while bytes remain. -/
def dribbleFile : File Nat where
  read s p :=
    if s = 0 then (⟨p, 0, true⟩, 0)
    else
      match p with
      | [] => (⟨[], 0, false⟩, s)
      | _ :: rest => (⟨0 :: rest, 1, false⟩, s - 1)

/-- The tag the example stores return for a part. -/
def tagOf (partNumber : Int) : String :=
  if partNumber = 1 then "etag-1"
  else if partNumber = 2 then "etag-2"
  else if partNumber = 3 then "etag-3"
  else "etag-n"

/-- A store whose calls all succeed. -/
def okStore : Store where
  createMultipartUpload _ _ := some "upload-1"
  uploadPart _ _ _ pn _ := some (tagOf pn)
  completeMultipartUpload _ _ _ _ := true

/-- A store whose `UploadPart` fails for part `k` and whose other calls succeed. -/
def failAtStore (k : Int) : Store where
  createMultipartUpload _ _ := some "upload-1"
  uploadPart _ _ _ pn _ := if pn = k then none else some (tagOf pn)
  completeMultipartUpload _ _ _ _ := true

/-! ## Arithmetic of the part count -/

theorem wrap64_of_range {x : Int} (h1 : int64Min ≤ x) (h2 : x ≤ int64Max) : wrap64 x = x := by
  unfold wrap64
  unfold int64Min at h1
  unfold int64Max at h2
  omega

theorem partSize_eq : partSize = 5242880 := by
  unfold partSize wrap64
  norm_num

theorem numParts_lt (fileSize : Int) : numParts fileSize < int64Max := by
  unfold numParts
  rw [partSize_eq]
  have h1 : wrap64 (wrap64 (fileSize + 5242880) - 1) ≤ 9223372036854775807 := by
    unfold wrap64
    omega
  generalize wrap64 (wrap64 (fileSize + 5242880) - 1) = x at h1
  unfold int64Max
  rcases le_or_lt 0 x with hx | hx
  · rw [Int.tdiv_eq_ediv hx (by norm_num)]
    omega
  · have h2 : 0 ≤ Int.tdiv (-x) 5242880 := Int.tdiv_nonneg (by omega) (by norm_num)
    rw [Int.neg_tdiv] at h2
    omega

theorem loopInv_init (fileSize : Int) :
    LoopInv (numParts fileSize) 1 (numParts fileSize).toNat :=
  ⟨le_refl 1, numParts_lt fileSize, by omega⟩

theorem partBuffer_length : partBuffer.length = 5242880 := by
  unfold partBuffer
  rw [List.length_replicate, partSize_eq]
  rfl

/-! ## Induction principle for the loop -/

theorem uploadLoop_induct {σ : Type} (svc : Store) (f : File σ) (b k u : String) (np : Int)
    (P : Int → σ → List CompletedPart → Outcome → Prop)
    (hexit : ∀ pn file cps, ¬ pn ≤ np → P pn file cps (completeUpload svc b k u cps))
    (hread : ∀ pn file cps, pn ≤ np → 1 ≤ pn → (f.read file partBuffer).1.err = true →
      P pn file cps ⟨[Event.read (f.read file partBuffer).1], [(pn, cps)],
        Response.error "Failed to read file part" 500⟩)
    (hupload : ∀ pn file cps, pn ≤ np → 1 ≤ pn → (f.read file partBuffer).1.err = false →
      svc.uploadPart b k u pn
        ((f.read file partBuffer).1.buf.take (f.read file partBuffer).1.n) = none →
      P pn file cps ⟨[Event.read (f.read file partBuffer).1,
          Event.uploadPart b k u pn
            ((f.read file partBuffer).1.buf.take (f.read file partBuffer).1.n) none],
        [(pn, cps)], Response.error "Failed to upload file part to S3" 500⟩)
    (hstep : ∀ pn file cps eTag out, pn ≤ np → 1 ≤ pn →
      (f.read file partBuffer).1.err = false →
      svc.uploadPart b k u pn
        ((f.read file partBuffer).1.buf.take (f.read file partBuffer).1.n) = some eTag →
      P (pn + 1) (f.read file partBuffer).2 (cps ++ [⟨eTag, pn⟩]) out →
      P pn file cps (out.after [Event.read (f.read file partBuffer).1,
          Event.uploadPart b k u pn
            ((f.read file partBuffer).1.buf.take (f.read file partBuffer).1.n) (some eTag)]
        [(pn, cps)])) :
    ∀ (fuel : Nat) (pn : Int) (h : LoopInv np pn fuel) (file : σ) (cps : List CompletedPart),
      P pn file cps (uploadLoop svc f b k u np fuel pn h file cps) := by
  intro fuel
  induction fuel with
  | zero =>
    intro pn h file cps
    unfold uploadLoop
    have hg : ¬ pn ≤ np := by
      have := h.enough
      omega
    simp only [hg, dite_false]
    exact hexit pn file cps hg
  | succ fuel ih =>
    intro pn h file cps
    unfold uploadLoop
    by_cases hg : pn ≤ np
    · simp only [hg, dite_true]
      have hw : wrap64 (pn + 1) = pn + 1 := by
        have h1 := h.lo
        have h2 := h.hi
        unfold wrap64
        unfold int64Max at h2
        omega
      cases hr : (f.read file partBuffer).1.err with
      | true =>
        simp only [if_true]
        have := hread pn file cps hg h.lo hr
        exact this
      | false =>
        simp only [Bool.false_eq_true, if_false]
        cases hu : svc.uploadPart b k u pn
            ((f.read file partBuffer).1.buf.take (f.read file partBuffer).1.n) with
        | none => exact hupload pn file cps hg h.lo hr hu
        | some eTag =>
          simp only []
          have key : ∀ (q : Int) (hn : LoopInv np q fuel), q = pn + 1 →
              P pn file cps ((uploadLoop svc f b k u np fuel q hn (f.read file partBuffer).2
                (cps ++ [⟨eTag, pn⟩])).after [Event.read (f.read file partBuffer).1,
                  Event.uploadPart b k u pn
                    ((f.read file partBuffer).1.buf.take (f.read file partBuffer).1.n)
                    (some eTag)] [(pn, cps)]) := by
            intro q hn hq
            subst hq
            exact hstep pn file cps eTag _ hg h.lo hr hu (ih _ hn _ _)
          exact key _ _ hw
    · simp only [hg, dite_false]
      exact hexit pn file cps hg

/-! ## Basic facts -/

@[simp] theorem after_trace (es : List Event) (its : List (Int × List CompletedPart))
    (o : Outcome) : (o.after es its).trace = es ++ o.trace := rfl

@[simp] theorem after_iterations (es : List Event) (its : List (Int × List CompletedPart))
    (o : Outcome) : (o.after es its).iterations = its ++ o.iterations := rfl

@[simp] theorem after_response (es : List Event) (its : List (Int × List CompletedPart))
    (o : Outcome) : (o.after es its).response = o.response := rfl

@[simp] theorem completeUpload_trace (svc : Store) (b k u : String) (cps : List CompletedPart) :
    (completeUpload svc b k u cps).trace =
      [Event.completeMultipartUpload b k u cps (svc.completeMultipartUpload b k u cps)] := by
  simp only [completeUpload]
  split <;> rfl

@[simp] theorem completeUpload_iterations (svc : Store) (b k u : String)
    (cps : List CompletedPart) : (completeUpload svc b k u cps).iterations = [] := by
  simp only [completeUpload]
  split <;> rfl

theorem completeUpload_response (svc : Store) (b k u : String) (cps : List CompletedPart) :
    (completeUpload svc b k u cps).response =
      if svc.completeMultipartUpload b k u cps then Response.redirect "/confirmation" 303
      else Response.error "Failed to complete multipart upload on S3" 500 := by
  simp only [completeUpload]
  split <;> simp [*]

theorem partRange_nil {lo hi : Int} (h : hi < lo) : partRange lo hi = [] := by
  unfold partRange
  have : (hi + 1 - lo).toNat = 0 := by omega
  rw [this]
  rfl

theorem partRange_cons {lo hi : Int} (h : lo ≤ hi) :
    partRange lo hi = lo :: partRange (lo + 1) hi := by
  unfold partRange
  have : (hi + 1 - lo).toNat = (hi + 1 - (lo + 1)).toNat + 1 := by omega
  rw [this, List.range_succ_eq_map, List.map_cons, List.map_map]
  congr 1
  · simp
  · apply List.map_congr_left
    intro i _
    simp only [Function.comp_apply, Nat.succ_eq_add_one, Nat.cast_add, Nat.cast_one]
    ring

theorem partRange_length (lo hi : Int) : (partRange lo hi).length = (hi + 1 - lo).toNat := by
  unfold partRange
  simp

theorem mem_body_of_not_last {α : Type} {body pre suf : List α} {last e : α}
    (h : body ++ [last] = pre ++ e :: suf) (hs : suf ≠ []) : e ∈ body := by
  rcases List.eq_nil_or_concat suf with h0 | ⟨suf1, x, hx⟩
  · exact absurd h0 hs
  · subst hx
    have h2 : body ++ [last] = (pre ++ e :: suf1) ++ [x] := by
      rw [h]
      simp
    have h3 := List.append_inj_left' h2 rfl
    rw [h3]
    simp

/-! ## Shape of a run of the loop -/

/-- Every run of the loop is a sequence of successful reads and uploads followed by one
last call: either the completion, or a read or an upload that failed.  The response is an
error with status 500 when the last call failed, and the redirect otherwise. -/
theorem uploadLoop_decomp {σ : Type} (svc : Store) (f : File σ) (b k u : String) (np : Int)
    (fuel : Nat) (pn : Int) (h : LoopInv np pn fuel) (file : σ) (cps : List CompletedPart) :
    ∃ body last, (uploadLoop svc f b k u np fuel pn h file cps).trace = body ++ [last] ∧
      (∀ e ∈ body, e.failed = false ∧ e.isTransfer = true) ∧
      (last.isComplete = true ∨ (last.isTransfer = true ∧ last.failed = true)) ∧
      (last.failed = true →
        ∃ msg, (uploadLoop svc f b k u np fuel pn h file cps).response
          = Response.error msg 500) ∧
      (last.failed = false →
        (uploadLoop svc f b k u np fuel pn h file cps).response
          = Response.redirect "/confirmation" 303) := by
  refine uploadLoop_induct svc f b k u np
    (fun _ _ _ out => ∃ body last, out.trace = body ++ [last] ∧
      (∀ e ∈ body, e.failed = false ∧ e.isTransfer = true) ∧
      (last.isComplete = true ∨ (last.isTransfer = true ∧ last.failed = true)) ∧
      (last.failed = true → ∃ msg, out.response = Response.error msg 500) ∧
      (last.failed = false → out.response = Response.redirect "/confirmation" 303))
    ?_ ?_ ?_ ?_ fuel pn h file cps
  · intro pn file cps _
    refine ⟨[], Event.completeMultipartUpload b k u cps
      (svc.completeMultipartUpload b k u cps), by simp, by simp, Or.inl rfl, ?_, ?_⟩
    · intro hf
      rw [completeUpload_response]
      simp only [Event.failed, Bool.not_eq_true'] at hf
      exact ⟨"Failed to complete multipart upload on S3", by simp [hf]⟩
    · intro hf
      rw [completeUpload_response]
      simp only [Event.failed, Bool.not_eq_false'] at hf
      simp [hf]
  · intro pn file cps _ _ hr
    refine ⟨[], Event.read (f.read file partBuffer).1, by simp, by simp,
      Or.inr ⟨rfl, by simpa [Event.failed] using hr⟩, fun _ => ⟨_, rfl⟩, ?_⟩
    intro hf
    simp [Event.failed, hr] at hf
  · intro pn file cps _ _ hr hu
    refine ⟨[Event.read (f.read file partBuffer).1],
      Event.uploadPart b k u pn
        ((f.read file partBuffer).1.buf.take (f.read file partBuffer).1.n) none,
      by simp, ?_, Or.inr ⟨rfl, by simp [Event.failed]⟩, fun _ => ⟨_, rfl⟩, ?_⟩
    · intro e he
      simp only [List.mem_singleton] at he
      subst he
      exact ⟨by simpa [Event.failed] using hr, rfl⟩
    · intro hf
      simp [Event.failed] at hf
  · intro pn file cps eTag out _ _ hr hu ih
    obtain ⟨body, last, ht, hb, hl, hf1, hf2⟩ := ih
    refine ⟨Event.read (f.read file partBuffer).1 ::
      Event.uploadPart b k u pn
        ((f.read file partBuffer).1.buf.take (f.read file partBuffer).1.n) (some eTag) :: body,
      last, by simp [ht], ?_, hl, by simpa using hf1, by simpa using hf2⟩
    intro e he
    simp only [List.mem_cons] at he
    rcases he with he | he | he
    · subst he
      exact ⟨by simpa [Event.failed] using hr, rfl⟩
    · subst he
      exact ⟨by simp [Event.failed], rfl⟩
    · exact hb e he

/-- The part list of a `CompleteMultipartUpload` call is the list the loop started with
followed by the parts uploaded since, each with the tag the store returned. -/
theorem uploadLoop_completeCalls {σ : Type} (svc : Store) (f : File σ) (b k u : String)
    (np : Int) (fuel : Nat) (pn : Int) (h : LoopInv np pn fuel) (file : σ)
    (cps : List CompletedPart) :
    ∀ parts ∈ completeCalls (uploadLoop svc f b k u np fuel pn h file cps).trace,
      parts = cps ++ uploadedParts (uploadLoop svc f b k u np fuel pn h file cps).trace := by
  refine uploadLoop_induct svc f b k u np
    (fun _ _ cps out => ∀ parts ∈ completeCalls out.trace,
      parts = cps ++ uploadedParts out.trace) ?_ ?_ ?_ ?_ fuel pn h file cps
  · intro pn file cps _ parts hp
    simp [completeCalls, uploadedParts] at hp ⊢
    exact hp
  · intro pn file cps _ _ _ parts hp
    simp [completeCalls] at hp
  · intro pn file cps _ _ _ _ parts hp
    simp [completeCalls] at hp
  · intro pn file cps eTag out _ _ _ _ ih parts hp
    have hp2 : parts ∈ completeCalls out.trace := by
      simpa [completeCalls] using hp
    have := ih parts hp2
    rw [this]
    simp [uploadedParts]

/-- When the loop reaches the completion, its calls are exactly one read and one upload for
each part from `pn` to `np`, in ascending order, and then the completion; the loop body ran
for exactly these part numbers and every one of the uploads succeeded. -/
theorem uploadLoop_ops {σ : Type} (svc : Store) (f : File σ) (b k u : String)
    (np : Int) (fuel : Nat) (pn : Int) (h : LoopInv np pn fuel) (file : σ)
    (cps : List CompletedPart)
    (hc : completeCalls (uploadLoop svc f b k u np fuel pn h file cps).trace ≠ []) :
    (uploadLoop svc f b k u np fuel pn h file cps).trace.map Event.op = loopOps b k u pn np ∧
      (uploadLoop svc f b k u np fuel pn h file cps).iterations.map Prod.fst
        = partRange pn np ∧
      (storeCalls (uploadLoop svc f b k u np fuel pn h file cps).trace).length
        = (np + 1 - pn).toNat + 1 ∧
      (uploadedParts (uploadLoop svc f b k u np fuel pn h file cps).trace).map
        CompletedPart.partNumber = partRange pn np ∧
      uploadPartNumbers (uploadLoop svc f b k u np fuel pn h file cps).trace
        = partRange pn np := by
  revert hc
  refine uploadLoop_induct svc f b k u np
    (fun pn _ _ out => completeCalls out.trace ≠ [] →
      out.trace.map Event.op = loopOps b k u pn np ∧
        out.iterations.map Prod.fst = partRange pn np ∧
        (storeCalls out.trace).length = (np + 1 - pn).toNat + 1 ∧
        (uploadedParts out.trace).map CompletedPart.partNumber = partRange pn np ∧
        uploadPartNumbers out.trace = partRange pn np) ?_ ?_ ?_ ?_ fuel pn h file cps
  · intro pn file cps hg _
    have hlt : np < pn := by omega
    have h0 : (np + 1 - pn).toNat = 0 := by omega
    simp [loopOps, partRange_nil hlt, Event.op, storeCalls, uploadedParts,
      uploadPartNumbers, h0]
  · intro pn file cps _ _ _ hc
    simp [completeCalls] at hc
  · intro pn file cps _ _ _ _ hc
    simp [completeCalls] at hc
  · intro pn file cps eTag out hg _ _ _ ih hc
    have hc2 : completeCalls out.trace ≠ [] := by
      simpa [completeCalls] using hc
    obtain ⟨h1, h2, h3, h4, h5⟩ := ih hc2
    have hn : (np + 1 - pn).toNat = (np + 1 - (pn + 1)).toNat + 1 := by omega
    refine ⟨?_, ?_, ?_, ?_, ?_⟩
    · simp only [after_trace, List.map_append, List.map_cons, List.map_nil, h1, Event.op]
      simp [loopOps, partRange_cons hg]
    · simp [h2, partRange_cons hg]
    · have : storeCalls (Event.read (f.read file partBuffer).1 ::
          Event.uploadPart b k u pn
            ((f.read file partBuffer).1.buf.take (f.read file partBuffer).1.n) (some eTag) ::
          out.trace) = Event.uploadPart b k u pn
            ((f.read file partBuffer).1.buf.take (f.read file partBuffer).1.n) (some eTag) ::
          storeCalls out.trace := by
        simp [storeCalls]
      simp only [after_trace, List.cons_append, List.nil_append, this, List.length_cons, h3, hn]
    · have : uploadedParts (Event.read (f.read file partBuffer).1 ::
          Event.uploadPart b k u pn
            ((f.read file partBuffer).1.buf.take (f.read file partBuffer).1.n) (some eTag) ::
          out.trace) = ⟨eTag, pn⟩ :: uploadedParts out.trace := by
        simp [uploadedParts]
      simp only [after_trace, List.cons_append, List.nil_append, this, List.map_cons, h4,
        partRange_cons hg]
    · have : uploadPartNumbers (Event.read (f.read file partBuffer).1 ::
          Event.uploadPart b k u pn
            ((f.read file partBuffer).1.buf.take (f.read file partBuffer).1.n) (some eTag) ::
          out.trace) = pn :: uploadPartNumbers out.trace := by
        simp [uploadPartNumbers]
      simp only [after_trace, List.cons_append, List.nil_append, this, h5, partRange_cons hg]

/-- The loop body runs for consecutive part numbers starting at `pn` and never beyond `np`;
it performs exactly one read in every iteration, and the uploads it issues carry the part
numbers of the iterations, in order. -/
theorem uploadLoop_iterations {σ : Type} (svc : Store) (f : File σ) (b k u : String)
    (np : Int) (fuel : Nat) (pn : Int) (h : LoopInv np pn fuel) (file : σ)
    (cps : List CompletedPart) :
    (uploadLoop svc f b k u np fuel pn h file cps).iterations.map Prod.fst
        = (partRange pn np).take
          (uploadLoop svc f b k u np fuel pn h file cps).iterations.length ∧
      (readResults (uploadLoop svc f b k u np fuel pn h file cps).trace).length
        = (uploadLoop svc f b k u np fuel pn h file cps).iterations.length ∧
      uploadPartNumbers (uploadLoop svc f b k u np fuel pn h file cps).trace
        = (partRange pn np).take
          (uploadPartNumbers (uploadLoop svc f b k u np fuel pn h file cps).trace).length := by
  refine uploadLoop_induct svc f b k u np
    (fun pn _ _ out =>
      out.iterations.map Prod.fst = (partRange pn np).take out.iterations.length ∧
      (readResults out.trace).length = out.iterations.length ∧
      uploadPartNumbers out.trace
        = (partRange pn np).take (uploadPartNumbers out.trace).length)
    ?_ ?_ ?_ ?_ fuel pn h file cps
  · intro pn file cps _
    simp [readResults, uploadPartNumbers]
  · intro pn file cps hg _ _
    simp [readResults, uploadPartNumbers, partRange_cons hg]
  · intro pn file cps hg _ _ _
    simp [readResults, uploadPartNumbers, partRange_cons hg]
  · intro pn file cps eTag out hg _ _ _ ih
    obtain ⟨h1, h2, h3⟩ := ih
    refine ⟨?_, ?_, ?_⟩
    · simp only [after_iterations, List.singleton_append, List.map_cons, List.length_cons,
        partRange_cons hg, List.take_succ_cons]
      rw [h1]
    · simpa [readResults] using h2
    · have h4 : uploadPartNumbers (Event.read (f.read file partBuffer).1 ::
          Event.uploadPart b k u pn
            ((f.read file partBuffer).1.buf.take (f.read file partBuffer).1.n) (some eTag) ::
          out.trace) = pn :: uploadPartNumbers out.trace := by
        simp [uploadPartNumbers]
      simp only [after_trace, List.cons_append, List.nil_append, h4, List.length_cons,
        partRange_cons hg, List.take_succ_cons]
      rw [← h3]

/-- At the top of the iteration for part `k` the list `completedParts` holds the part
numbers it held when the loop started followed by `pn, ..., k - 1`, in that order. -/
theorem uploadLoop_snapshots {σ : Type} (svc : Store) (f : File σ) (b k u : String)
    (np : Int) (fuel : Nat) (pn : Int) (h : LoopInv np pn fuel) (file : σ)
    (cps : List CompletedPart) :
    ∀ it ∈ (uploadLoop svc f b k u np fuel pn h file cps).iterations,
      pn ≤ it.1 ∧
        it.2.map CompletedPart.partNumber
          = cps.map CompletedPart.partNumber ++ partRange pn (it.1 - 1) := by
  refine uploadLoop_induct svc f b k u np
    (fun pn _ cps out => ∀ it ∈ out.iterations,
      pn ≤ it.1 ∧
        it.2.map CompletedPart.partNumber
          = cps.map CompletedPart.partNumber ++ partRange pn (it.1 - 1))
    ?_ ?_ ?_ ?_ fuel pn h file cps
  · intro pn file cps _ it hit
    simp at hit
  · intro pn file cps _ _ _ it hit
    simp only [List.mem_singleton] at hit
    subst hit
    simp [partRange_nil]
  · intro pn file cps _ _ _ _ it hit
    simp only [List.mem_singleton] at hit
    subst hit
    simp [partRange_nil]
  · intro pn file cps eTag out _ _ _ _ ih it hit
    simp only [after_iterations, List.singleton_append, List.mem_cons] at hit
    rcases hit with hit | hit
    · subst hit
      simp [partRange_nil]
    · obtain ⟨h1, h2⟩ := ih it hit
      refine ⟨by omega, ?_⟩
      rw [h2, partRange_cons (show pn ≤ it.1 - 1 by omega)]
      simp

/-- Every upload body is the bytes returned by the read of its iteration: the bodies, in
call order, are the bytes of the reads that returned no error, in call order. -/
theorem uploadLoop_bodies {σ : Type} (svc : Store) (f : File σ) (b k u : String)
    (np : Int) (fuel : Nat) (pn : Int) (h : LoopInv np pn fuel) (file : σ)
    (cps : List CompletedPart) :
    uploadBodies (uploadLoop svc f b k u np fuel pn h file cps).trace
      = ((readResults (uploadLoop svc f b k u np fuel pn h file cps).trace).filter
          (fun r => !r.err)).map ReadResult.bytes := by
  refine uploadLoop_induct svc f b k u np
    (fun _ _ _ out => uploadBodies out.trace
      = ((readResults out.trace).filter (fun r => !r.err)).map ReadResult.bytes)
    ?_ ?_ ?_ ?_ fuel pn h file cps
  · intro pn file cps _
    simp [uploadBodies, readResults]
  · intro pn file cps _ _ hr
    simp [uploadBodies, readResults, hr]
  · intro pn file cps _ _ hr _
    simp [uploadBodies, readResults, hr, ReadResult.bytes]
  · intro pn file cps eTag out _ _ hr _ ih
    have h1 : uploadBodies (Event.read (f.read file partBuffer).1 ::
        Event.uploadPart b k u pn
          ((f.read file partBuffer).1.buf.take (f.read file partBuffer).1.n) (some eTag) ::
        out.trace) = (f.read file partBuffer).1.bytes :: uploadBodies out.trace := by
      simp [uploadBodies, ReadResult.bytes]
    have h2 : readResults (Event.read (f.read file partBuffer).1 ::
        Event.uploadPart b k u pn
          ((f.read file partBuffer).1.buf.take (f.read file partBuffer).1.n) (some eTag) ::
        out.trace) = (f.read file partBuffer).1 :: readResults out.trace := by
      simp [readResults]
    simp only [after_trace, List.cons_append, List.nil_append, h1, h2, ih]
    simp [hr]

/-! ## Shape of a run of the handler -/

theorem uploadHandler_none {σ : Type} (svc : Store) (bucket : String) (f : File σ) :
    uploadHandler svc bucket f none
      = ⟨[], [], Response.error "Failed to read the uploaded file" 400⟩ := rfl

theorem uploadHandler_create_failed {σ : Type} (svc : Store) (bucket : String) (f : File σ)
    (file : σ) (hdr : FileHeader)
    (hc : svc.createMultipartUpload bucket hdr.filename = none) :
    uploadHandler svc bucket f (some (file, hdr))
      = ⟨[Event.createMultipartUpload bucket hdr.filename none], [],
        Response.error "Failed to create multipart upload on S3" 500⟩ := by
  simp only [uploadHandler, hc]

theorem uploadHandler_created {σ : Type} (svc : Store) (bucket : String) (f : File σ)
    (file : σ) (hdr : FileHeader) (uid : String)
    (hc : svc.createMultipartUpload bucket hdr.filename = some uid) :
    ∃ h : LoopInv (numParts hdr.size) 1 (numParts hdr.size).toNat,
      uploadHandler svc bucket f (some (file, hdr))
        = (uploadLoop svc f bucket hdr.filename uid (numParts hdr.size)
            (numParts hdr.size).toNat 1 h file []).after
          [Event.createMultipartUpload bucket hdr.filename (some uid)] [] := by
  simp only [uploadHandler, hc]
  exact ⟨loopInv_init hdr.size, trivial⟩

theorem isTransfer_not_complete {e : Event} (h : e.isTransfer = true) :
    e.isComplete = false ∧ e.isAbort = false := by
  cases e <;> simp_all [Event.isTransfer, Event.isComplete, Event.isAbort]

theorem isComplete_not_abort {e : Event} (h : e.isComplete = true) : e.isAbort = false := by
  cases e <;> simp_all [Event.isComplete, Event.isAbort]

/-- Every run on a parsed form is a sequence of successful calls, none of them a completion
or an abort, followed by one last call.  The response is an error with status 500 when the
last call failed; otherwise the last call is the completion and the response is the
redirect. -/
theorem uploadHandler_decomp {σ : Type} (svc : Store) (bucket : String) (f : File σ)
    (file : σ) (hdr : FileHeader) :
    ∃ body last, (uploadHandler svc bucket f (some (file, hdr))).trace = body ++ [last] ∧
      (∀ e ∈ body, e.failed = false ∧ e.isComplete = false ∧ e.isAbort = false) ∧
      last.isAbort = false ∧
      (last.failed = true →
        ∃ msg, (uploadHandler svc bucket f (some (file, hdr))).response
          = Response.error msg 500) ∧
      (last.failed = false → last.isComplete = true ∧
        (uploadHandler svc bucket f (some (file, hdr))).response
          = Response.redirect "/confirmation" 303) := by
  cases hc : svc.createMultipartUpload bucket hdr.filename with
  | none =>
    rw [uploadHandler_create_failed svc bucket f file hdr hc]
    refine ⟨[], Event.createMultipartUpload bucket hdr.filename none, rfl, by simp, rfl,
      fun _ => ⟨_, rfl⟩, ?_⟩
    intro hf
    simp [Event.failed] at hf
  | some uid =>
    obtain ⟨h, heq⟩ := uploadHandler_created svc bucket f file hdr uid hc
    rw [heq]
    obtain ⟨body, last, ht, hb, hl, hf1, hf2⟩ :=
      uploadLoop_decomp svc f bucket hdr.filename uid (numParts hdr.size)
        (numParts hdr.size).toNat 1 h file []
    refine ⟨Event.createMultipartUpload bucket hdr.filename (some uid) :: body, last,
      by simp [ht], ?_, ?_, by simpa using hf1, ?_⟩
    · intro e he
      simp only [List.mem_cons] at he
      rcases he with he | he
      · subst he
        exact ⟨rfl, rfl, rfl⟩
      · exact ⟨(hb e he).1, isTransfer_not_complete (hb e he).2⟩
    · rcases hl with hl | hl
      · exact isComplete_not_abort hl
      · exact (isTransfer_not_complete hl.1).2
    · intro hf
      refine ⟨?_, by simpa using hf2 hf⟩
      rcases hl with hl | hl
      · exact hl
      · rw [hl.2] at hf
        exact absurd hf (by simp)

/-- A call that failed is the last call of the run, and the response is then an error with
status 500. -/
theorem failed_is_last {σ : Type} (svc : Store) (bucket : String) (f : File σ)
    (form : Option (σ × FileHeader)) (pre suf : List Event) (e : Event)
    (ht : (uploadHandler svc bucket f form).trace = pre ++ e :: suf)
    (hf : e.failed = true) :
    suf = [] ∧ ∃ msg, (uploadHandler svc bucket f form).response = Response.error msg 500 := by
  cases form with
  | none =>
    rw [uploadHandler_none] at ht
    simp at ht
  | some fh =>
    obtain ⟨file, hdr⟩ := fh
    obtain ⟨body, last, hb, hok, _, hf1, _⟩ := uploadHandler_decomp svc bucket f file hdr
    rw [hb] at ht
    have hs : suf = [] := by
      by_contra hne
      have hmem := mem_body_of_not_last ht hne
      have := (hok e hmem).1
      rw [hf] at this
      exact absurd this (by simp)
    subst hs
    have hlast : last = e := by
      have := List.append_inj_right' ht rfl
      simpa using this
    subst hlast
    exact ⟨rfl, hf1 hf⟩

/-- A completion call is the last call of the run. -/
theorem complete_is_last {σ : Type} (svc : Store) (bucket : String) (f : File σ)
    (form : Option (σ × FileHeader)) (pre suf : List Event) (e : Event)
    (ht : (uploadHandler svc bucket f form).trace = pre ++ e :: suf)
    (hf : e.isComplete = true) : suf = [] := by
  cases form with
  | none =>
    rw [uploadHandler_none] at ht
    simp at ht
  | some fh =>
    obtain ⟨file, hdr⟩ := fh
    obtain ⟨body, last, hb, hok, _, _, _⟩ := uploadHandler_decomp svc bucket f file hdr
    rw [hb] at ht
    by_contra hne
    have hmem := mem_body_of_not_last ht hne
    have := (hok e hmem).2.1
    rw [hf] at this
    exact absurd this (by simp)

theorem completeCalls_eq_nil {t : List Event} (h : ∀ e ∈ t, e.isComplete = false) :
    completeCalls t = [] := by
  unfold completeCalls
  rw [List.filterMap_eq_nil_iff]
  intro e he
  have := h e he
  cases e <;> simp_all [Event.isComplete]

theorem abortCalls_eq_zero {t : List Event} (h : ∀ e ∈ t, e.isAbort = false) :
    abortCalls t = 0 := by
  unfold abortCalls
  rw [List.countP_eq_zero]
  intro e he
  simp [h e he]

/-- The handler never calls `AbortMultipartUpload`. -/
theorem uploadHandler_no_abort {σ : Type} (svc : Store) (bucket : String) (f : File σ)
    (form : Option (σ × FileHeader)) :
    abortCalls (uploadHandler svc bucket f form).trace = 0 := by
  cases form with
  | none => rfl
  | some fh =>
    obtain ⟨file, hdr⟩ := fh
    obtain ⟨body, last, hb, hok, hl, _, _⟩ := uploadHandler_decomp svc bucket f file hdr
    apply abortCalls_eq_zero
    rw [hb]
    intro e he
    simp only [List.mem_append, List.mem_singleton] at he
    rcases he with he | he
    · exact (hok e he).2.2
    · rw [he]
      exact hl

/-- The handler calls `CompleteMultipartUpload` at most once. -/
theorem completeCalls_length_le {σ : Type} (svc : Store) (bucket : String) (f : File σ)
    (form : Option (σ × FileHeader)) :
    (completeCalls (uploadHandler svc bucket f form).trace).length ≤ 1 := by
  cases form with
  | none => simp [uploadHandler_none, completeCalls]
  | some fh =>
    obtain ⟨file, hdr⟩ := fh
    obtain ⟨body, last, hb, hok, _, _, _⟩ := uploadHandler_decomp svc bucket f file hdr
    rw [hb]
    have h1 : completeCalls (body ++ [last]) = completeCalls body ++ completeCalls [last] := by
      simp [completeCalls]
    rw [h1, completeCalls_eq_nil (fun e he => (hok e he).2.1)]
    cases last <;> simp [completeCalls]

/-- A run that reaches the completion: its calls are the create, then one read and one
upload per part `1, ..., numParts` in ascending order, then the single completion, which
lists the uploaded parts with the tags the store returned. -/
theorem uploadHandler_reaches_complete {σ : Type} (svc : Store) (bucket : String)
    (f : File σ) (file : σ) (hdr : FileHeader) (uid : String)
    (hc : svc.createMultipartUpload bucket hdr.filename = some uid)
    (hr : completeCalls (uploadHandler svc bucket f (some (file, hdr))).trace ≠ []) :
    (uploadHandler svc bucket f (some (file, hdr))).trace.map Event.op
        = expectedOps bucket hdr.filename uid (numParts hdr.size) ∧
      (uploadHandler svc bucket f (some (file, hdr))).iterations.map Prod.fst
        = partRange 1 (numParts hdr.size) ∧
      (storeCalls (uploadHandler svc bucket f (some (file, hdr))).trace).length
        = (numParts hdr.size).toNat + 2 ∧
      completeCalls (uploadHandler svc bucket f (some (file, hdr))).trace
        = [uploadedParts (uploadHandler svc bucket f (some (file, hdr))).trace] ∧
      (uploadedParts (uploadHandler svc bucket f (some (file, hdr))).trace).map
        CompletedPart.partNumber = partRange 1 (numParts hdr.size) ∧
      uploadPartNumbers (uploadHandler svc bucket f (some (file, hdr))).trace
        = partRange 1 (numParts hdr.size) := by
  have hle := completeCalls_length_le svc bucket f (some (file, hdr))
  obtain ⟨h, heq⟩ := uploadHandler_created svc bucket f file hdr uid hc
  rw [heq] at hr hle ⊢
  have hcc : completeCalls ((uploadLoop svc f bucket hdr.filename uid (numParts hdr.size)
      (numParts hdr.size).toNat 1 h file []).after
        [Event.createMultipartUpload bucket hdr.filename (some uid)] []).trace
      = completeCalls (uploadLoop svc f bucket hdr.filename uid (numParts hdr.size)
        (numParts hdr.size).toNat 1 h file []).trace := by
    simp [completeCalls]
  have hup : uploadedParts ((uploadLoop svc f bucket hdr.filename uid (numParts hdr.size)
      (numParts hdr.size).toNat 1 h file []).after
        [Event.createMultipartUpload bucket hdr.filename (some uid)] []).trace
      = uploadedParts (uploadLoop svc f bucket hdr.filename uid (numParts hdr.size)
        (numParts hdr.size).toNat 1 h file []).trace := by
    simp [uploadedParts]
  rw [hcc] at hr hle
  obtain ⟨h1, h2, h3, h4, h5⟩ := uploadLoop_ops svc f bucket hdr.filename uid
    (numParts hdr.size) (numParts hdr.size).toNat 1 h file [] hr
  have h6 := uploadLoop_completeCalls svc f bucket hdr.filename uid
    (numParts hdr.size) (numParts hdr.size).toNat 1 h file []
  refine ⟨?_, ?_, ?_, ?_, ?_, ?_⟩
  · simp [expectedOps, h1, Event.op]
  · simpa using h2
  · have : (numParts hdr.size + 1 - 1).toNat = (numParts hdr.size).toNat := by omega
    simp [storeCalls] at h3 ⊢
    omega
  · rw [hcc, hup]
    generalize completeCalls (uploadLoop svc f bucket hdr.filename uid (numParts hdr.size)
      (numParts hdr.size).toNat 1 h file []).trace = cc at hr hle h6
    match cc, hr, hle, h6 with
    | [parts], _, _, h6 =>
      have := h6 parts (by simp)
      simpa using this
    | _ :: _ :: _, _, hle, _ => simp at hle
  · rw [hup]
    exact h4
  · simpa [uploadPartNumbers] using h5

theorem uploadLoop_exit {σ : Type} (svc : Store) (f : File σ) (b k u : String)
    (np : Int) (fuel : Nat) (pn : Int) (h : LoopInv np pn fuel) (file : σ)
    (cps : List CompletedPart) (hg : ¬ pn ≤ np) :
    uploadLoop svc f b k u np fuel pn h file cps = completeUpload svc b k u cps := by
  cases fuel <;> simp [uploadLoop, hg]

/-- After a read or an upload that failed, `CompleteMultipartUpload` is not called. -/
theorem no_complete_of_failed_transfer {σ : Type} (svc : Store) (bucket : String)
    (f : File σ) (form : Option (σ × FileHeader)) (e : Event)
    (he : e ∈ (uploadHandler svc bucket f form).trace) (hf : e.failed = true)
    (ht : e.isTransfer = true) :
    completeCalls (uploadHandler svc bucket f form).trace = [] := by
  apply completeCalls_eq_nil
  intro x hx
  by_contra hcx
  have hxc : x.isComplete = true := by simpa using hcx
  obtain ⟨pre, suf, hsplit⟩ := List.append_of_mem he
  have hsuf := (failed_is_last svc bucket f form pre suf e hsplit hf).1
  subst hsuf
  obtain ⟨pre2, suf2, hsplit2⟩ := List.append_of_mem hx
  have hsuf2 := complete_is_last svc bucket f form pre2 suf2 x hsplit2 hxc
  subst hsuf2
  rw [hsplit] at hsplit2
  have := List.append_inj_right' hsplit2 rfl
  simp only [List.cons.injEq, and_true] at this
  subst this
  rw [(isTransfer_not_complete ht).1] at hxc
  exact absurd hxc (by simp)

/-- A run answered with the redirect: the create succeeded, the completion was reached, and
no call failed. -/
theorem uploadHandler_success {σ : Type} (svc : Store) (bucket : String) (f : File σ)
    (file : σ) (hdr : FileHeader)
    (hs : (uploadHandler svc bucket f (some (file, hdr))).response
      = Response.redirect "/confirmation" 303) :
    ∃ uid, svc.createMultipartUpload bucket hdr.filename = some uid ∧
      completeCalls (uploadHandler svc bucket f (some (file, hdr))).trace ≠ [] ∧
      ∀ e ∈ (uploadHandler svc bucket f (some (file, hdr))).trace, e.failed = false := by
  cases hc : svc.createMultipartUpload bucket hdr.filename with
  | none =>
    rw [uploadHandler_create_failed svc bucket f file hdr hc] at hs
    simp at hs
  | some uid =>
    obtain ⟨body, last, hb, hok, _, hf1, hf2⟩ := uploadHandler_decomp svc bucket f file hdr
    have hlf : last.failed = false := by
      cases hlast : last.failed with
      | false => rfl
      | true =>
        obtain ⟨msg, hmsg⟩ := hf1 hlast
        rw [hmsg] at hs
        simp at hs
    have hlc := (hf2 hlf).1
    refine ⟨uid, rfl, ?_, ?_⟩
    · rw [hb]
      cases last <;> simp_all [completeCalls, Event.isComplete]
    · intro e he
      rw [hb] at he
      simp only [List.mem_append, List.mem_singleton] at he
      rcases he with he | he
      · exact (hok e he).1
      · rw [he]
        exact hlf

/-- Facts about the loop that hold in every run on a parsed form: the snapshots at the top
of the iterations, the part numbers the body ran for, one read per iteration, the part
numbers of the uploads, and the upload bodies as the bytes of the successful reads. -/
theorem uploadHandler_loop_facts {σ : Type} (svc : Store) (bucket : String) (f : File σ)
    (file : σ) (hdr : FileHeader) :
    (∀ it ∈ (uploadHandler svc bucket f (some (file, hdr))).iterations,
      1 ≤ it.1 ∧ it.2.map CompletedPart.partNumber = partRange 1 (it.1 - 1)) ∧
    (uploadHandler svc bucket f (some (file, hdr))).iterations.map Prod.fst
      = (partRange 1 (numParts hdr.size)).take
        (uploadHandler svc bucket f (some (file, hdr))).iterations.length ∧
    (readResults (uploadHandler svc bucket f (some (file, hdr))).trace).length
      = (uploadHandler svc bucket f (some (file, hdr))).iterations.length ∧
    uploadPartNumbers (uploadHandler svc bucket f (some (file, hdr))).trace
      = (partRange 1 (numParts hdr.size)).take
        (uploadPartNumbers (uploadHandler svc bucket f (some (file, hdr))).trace).length ∧
    uploadBodies (uploadHandler svc bucket f (some (file, hdr))).trace
      = ((readResults (uploadHandler svc bucket f (some (file, hdr))).trace).filter
          (fun r => !r.err)).map ReadResult.bytes := by
  cases hc : svc.createMultipartUpload bucket hdr.filename with
  | none =>
    rw [uploadHandler_create_failed svc bucket f file hdr hc]
    simp [readResults, uploadPartNumbers, uploadBodies]
  | some uid =>
    obtain ⟨h, heq⟩ := uploadHandler_created svc bucket f file hdr uid hc
    rw [heq]
    have h1 := uploadLoop_snapshots svc f bucket hdr.filename uid (numParts hdr.size)
      (numParts hdr.size).toNat 1 h file []
    obtain ⟨h2, h3, h4⟩ := uploadLoop_iterations svc f bucket hdr.filename uid
      (numParts hdr.size) (numParts hdr.size).toNat 1 h file []
    have h5 := uploadLoop_bodies svc f bucket hdr.filename uid (numParts hdr.size)
      (numParts hdr.size).toNat 1 h file []
    have e1 : ∀ t : List Event, readResults
        (Event.createMultipartUpload bucket hdr.filename (some uid) :: t) = readResults t := by
      intro t
      simp [readResults]
    have e2 : ∀ t : List Event, uploadPartNumbers
        (Event.createMultipartUpload bucket hdr.filename (some uid) :: t)
          = uploadPartNumbers t := by
      intro t
      simp [uploadPartNumbers]
    have e3 : ∀ t : List Event, uploadBodies
        (Event.createMultipartUpload bucket hdr.filename (some uid) :: t)
          = uploadBodies t := by
      intro t
      simp [uploadBodies]
    simp only [after_trace, after_iterations, List.nil_append, List.singleton_append, e1, e2, e3]
    refine ⟨?_, h2, h3, h4, h5⟩
    intro it hit
    simpa using h1 it hit

theorem partRange_pairwise (lo hi : Int) : (partRange lo hi).Pairwise (· < ·) := by
  unfold partRange
  rw [List.pairwise_map]
  exact (List.pairwise_lt_range _).imp (by intro a b hab; omega)

theorem mem_uploadedParts {t : List Event} {p : CompletedPart} (hp : p ∈ uploadedParts t) :
    ∃ b k u body, Event.uploadPart b k u p.partNumber body (some p.eTag) ∈ t := by
  unfold uploadedParts at hp
  rw [List.mem_filterMap] at hp
  obtain ⟨e, he, hep⟩ := hp
  cases e with
  | uploadPart b k u pn body res =>
    cases res with
    | none => simp at hep
    | some eTag =>
      simp only [Option.some.injEq] at hep
      subst hep
      exact ⟨b, k, u, body, he⟩
  | _ => simp at hep

theorem wrap64_sub_one (x : Int) : wrap64 (wrap64 x - 1) = wrap64 (x - 1) := by
  unfold wrap64
  omega

/-- Without overflow the part count is the floor of `(s + partSize - 1) / partSize`. -/
theorem numParts_of_bounds (s : Int) (h0 : 0 ≤ s) (hrep : s + partSize - 1 ≤ int64Max) :
    numParts s = (s + 5242879) / 5242880 := by
  unfold numParts
  rw [partSize_eq] at hrep ⊢
  unfold int64Max at hrep
  have e2 : wrap64 (s + 5242880 - 1) = s + 5242879 := by
    unfold wrap64
    omega
  rw [wrap64_sub_one, e2, Int.tdiv_eq_ediv (by omega) (by norm_num)]

theorem ceil_of_bounds (s n : Int) (h1 : (n - 1) * 5242880 < s) (h2 : s ≤ n * 5242880) :
    ⌈(s : ℚ) / (partSize : ℚ)⌉ = n := by
  rw [partSize_eq, Int.ceil_eq_iff]
  constructor
  · rw [lt_div_iff₀ (by norm_num)]
    have : (((n - 1) * 5242880 : Int) : ℚ) < (s : ℚ) := by exact_mod_cast h1
    push_cast at this ⊢
    linarith
  · rw [div_le_iff₀ (by norm_num)]
    have : ((s : Int) : ℚ) ≤ ((n * 5242880 : Int) : ℚ) := by exact_mod_cast h2
    push_cast at this ⊢
    linarith

theorem natCeil_of_bounds (L n : Nat) (h1 : (n - 1) * 5242880 < L) (h2 : L ≤ n * 5242880) :
    ⌈(L : ℚ) / (partSize : ℚ)⌉₊ = n := by
  have hn : n ≠ 0 := by
    rintro rfl
    omega
  rw [partSize_eq, Nat.ceil_eq_iff hn]
  constructor
  · rw [lt_div_iff₀ (by norm_num)]
    have : (((n - 1) * 5242880 : Nat) : ℚ) < (L : ℚ) := by exact_mod_cast h1
    push_cast at this ⊢
    linarith
  · rw [div_le_iff₀ (by norm_num)]
    have : ((L : Nat) : ℚ) ≤ ((n * 5242880 : Nat) : ℚ) := by exact_mod_cast h2
    push_cast at this ⊢
    linarith

theorem uploadPartNumbers_length (t : List Event) :
    (uploadPartNumbers t).length = (uploadBodies t).length := by
  induction t with
  | nil => rfl
  | cons e t ih =>
    cases e <;> simpa [uploadPartNumbers, uploadBodies] using ih

/-- With a source whose reads fill the buffer and a store whose calls succeed, a loop that
has `m` iterations left and between `(m - 1) * partSize + 1` and `m * partSize` bytes to
read uploads `m - 1` parts of `partSize` bytes and a last part with the rest, and reaches a
successful completion. -/
theorem uploadLoop_full_reads {σ : Type} (svc : Store) (f : File σ) (remaining : σ → Nat)
    (hf : FillsBuffer f remaining) (hs : StoreSucceeds svc) (b k u : String)
    (np : Int) (fuel : Nat) (pn : Int) (h : LoopInv np pn fuel) (file : σ)
    (cps : List CompletedPart) :
    ∀ m : Nat, m = (np + 1 - pn).toNat →
      (0 < m → (m - 1) * 5242880 < remaining file ∧ remaining file ≤ m * 5242880) →
      (uploadBodies (uploadLoop svc f b k u np fuel pn h file cps).trace).map List.length
          = (if m = 0 then []
            else List.replicate (m - 1) 5242880 ++ [remaining file - (m - 1) * 5242880]) ∧
        (uploadLoop svc f b k u np fuel pn h file cps).response
          = Response.redirect "/confirmation" 303 ∧
        completeCalls (uploadLoop svc f b k u np fuel pn h file cps).trace ≠ [] := by
  refine uploadLoop_induct svc f b k u np
    (fun pn file _ out => ∀ m : Nat, m = (np + 1 - pn).toNat →
      (0 < m → (m - 1) * 5242880 < remaining file ∧ remaining file ≤ m * 5242880) →
      (uploadBodies out.trace).map List.length
          = (if m = 0 then []
            else List.replicate (m - 1) 5242880 ++ [remaining file - (m - 1) * 5242880]) ∧
        out.response = Response.redirect "/confirmation" 303 ∧
        completeCalls out.trace ≠ []) ?_ ?_ ?_ ?_ fuel pn h file cps
  · intro pn file cps hg m hm _
    have h0 : m = 0 := by omega
    subst h0
    rw [completeUpload_response, hs.complete]
    simp [uploadBodies, completeCalls]
  · intro pn file cps hg _ hr m hm hrem
    have hpos : 0 < remaining file := by
      have := (hrem (by omega)).1
      omega
    rw [hf.err file partBuffer hpos] at hr
    exact absurd hr (by simp)
  · intro pn file cps hg _ _ hu m hm hrem
    have := hs.upload b k u pn
      ((f.read file partBuffer).1.buf.take (f.read file partBuffer).1.n)
    rw [hu] at this
    exact absurd this (by simp)
  · intro pn file cps eTag out hg _ _ _ ih m hm hrem
    obtain ⟨hlo, hhi⟩ := hrem (by omega)
    have hpos : 0 < remaining file := by omega
    have hn := hf.n file partBuffer hpos
    have hbuf := hf.buf file partBuffer hpos
    have hrest := hf.rest file partBuffer hpos
    rw [partBuffer_length] at hn hbuf hrest
    have hbody : ((f.read file partBuffer).1.buf.take (f.read file partBuffer).1.n).length
        = min 5242880 (remaining file) := by
      rw [List.length_take, hn, hbuf]
      omega
    have hm' : m - 1 = (np + 1 - (pn + 1)).toNat := by omega
    have hih := ih (m - 1) hm' (by
      intro hpos'
      rw [hrest]
      omega)
    obtain ⟨h1, h2, h3⟩ := hih
    refine ⟨?_, by simpa using h2, by simpa [completeCalls] using h3⟩
    have hb : uploadBodies ((out.after [Event.read (f.read file partBuffer).1,
        Event.uploadPart b k u pn
          ((f.read file partBuffer).1.buf.take (f.read file partBuffer).1.n) (some eTag)]
        [(pn, cps)]).trace)
        = ((f.read file partBuffer).1.buf.take (f.read file partBuffer).1.n)
          :: uploadBodies out.trace := by
      simp [uploadBodies]
    rw [hb, List.map_cons, h1, hbody, hrest]
    have hm0 : m ≠ 0 := by omega
    rw [if_neg hm0]
    rcases Nat.eq_zero_or_pos (m - 1) with hz | hp
    · rw [if_pos hz, hz]
      simp only [List.replicate_zero, List.nil_append, zero_mul, Nat.sub_zero]
      congr 1
      omega
    · rw [if_neg (by omega)]
      obtain ⟨j, hj⟩ : ∃ j, m = j + 2 := ⟨m - 2, by omega⟩
      subst hj
      simp only [Nat.add_sub_cancel, show j + 2 - 1 = j + 1 by omega, List.replicate_succ,
        List.cons_append]
      congr 1
      · omega
      · congr 2
        omega

theorem zeroFile_fillsBuffer : FillsBuffer zeroFile (fun s => s) := by
  refine ⟨?_, ?_, ?_, ?_⟩ <;> intro s p hs <;>
    have h0 : s ≠ 0 := by omega
  · simp [zeroFile, h0]
  · simp [zeroFile, h0]
  · simp only [zeroFile, h0, if_false, List.length_append, List.length_replicate,
      List.length_drop]
    omega
  · simp [zeroFile, h0]

theorem okStore_succeeds : StoreSucceeds okStore :=
  ⟨fun _ _ => rfl, fun _ _ _ _ _ => rfl, fun _ _ _ _ => rfl⟩

/-- When the bytes a successful read returns are the next bytes of the stream, the upload
bodies of the loop, concatenated in call order, are an initial segment of the bytes the
stream held when the loop started. -/
theorem uploadLoop_bodies_of_content {σ : Type} (svc : Store) (f : File σ) (b k u : String)
    (content : σ → List Byte)
    (hcontent : ∀ s p, (f.read s p).1.err = false →
      content s = (f.read s p).1.buf.take (f.read s p).1.n ++ content (f.read s p).2)
    (np : Int) (fuel : Nat) (pn : Int) (h : LoopInv np pn fuel) (file : σ)
    (cps : List CompletedPart) :
    ∃ rest, content file
      = (uploadBodies (uploadLoop svc f b k u np fuel pn h file cps).trace).flatten ++ rest := by
  refine uploadLoop_induct svc f b k u np
    (fun _ file _ out => ∃ rest, content file = (uploadBodies out.trace).flatten ++ rest)
    ?_ ?_ ?_ ?_ fuel pn h file cps
  · intro pn file cps _
    exact ⟨content file, by simp [uploadBodies]⟩
  · intro pn file cps _ _ _
    exact ⟨content file, by simp [uploadBodies]⟩
  · intro pn file cps _ _ hr _
    exact ⟨content (f.read file partBuffer).2, by
      simpa [uploadBodies] using hcontent file partBuffer hr⟩
  · intro pn file cps eTag out _ _ hr _ ih
    obtain ⟨rest, hrest⟩ := ih
    refine ⟨rest, ?_⟩
    have hb : uploadBodies ((out.after [Event.read (f.read file partBuffer).1,
        Event.uploadPart b k u pn
          ((f.read file partBuffer).1.buf.take (f.read file partBuffer).1.n) (some eTag)]
        [(pn, cps)]).trace)
        = ((f.read file partBuffer).1.buf.take (f.read file partBuffer).1.n)
          :: uploadBodies out.trace := by
      simp [uploadBodies]
    rw [hb, List.flatten_cons, List.append_assoc, ← hrest]
    exact hcontent file partBuffer hr

theorem uploadHandler_bodies_of_content {σ : Type} (svc : Store) (bucket : String)
    (f : File σ) (file : σ) (hdr : FileHeader) (content : σ → List Byte)
    (hcontent : ∀ s p, (f.read s p).1.err = false →
      content s = (f.read s p).1.buf.take (f.read s p).1.n ++ content (f.read s p).2) :
    ∃ rest, content file
      = (uploadBodies (uploadHandler svc bucket f (some (file, hdr))).trace).flatten
        ++ rest := by
  cases hc : svc.createMultipartUpload bucket hdr.filename with
  | none =>
    rw [uploadHandler_create_failed svc bucket f file hdr hc]
    exact ⟨content file, by simp [uploadBodies]⟩
  | some uid =>
    obtain ⟨h, heq⟩ := uploadHandler_created svc bucket f file hdr uid hc
    obtain ⟨rest, hrest⟩ := uploadLoop_bodies_of_content svc f bucket hdr.filename uid
      content hcontent (numParts hdr.size) (numParts hdr.size).toNat 1 h file []
    refine ⟨rest, ?_⟩
    rw [heq, hrest]
    simp [uploadBodies]

theorem mem_partRange {lo hi x : Int} (h : x ∈ partRange lo hi) : lo ≤ x ∧ x ≤ hi := by
  unfold partRange at h
  rw [List.mem_map] at h
  obtain ⟨i, hi', rfl⟩ := h
  rw [List.mem_range] at hi'
  omega

theorem take_partRange (n : Nat) (hi : Int) (h : (n : Int) ≤ hi) :
    (partRange 1 hi).take n = partRange 1 n := by
  unfold partRange
  rw [← List.map_take, List.take_range]
  congr 2
  omega

theorem partRange_last (n : Nat) : partRange 1 ((n + 1 : Nat) : Int) = partRange 1 (n : Int) ++ [((n + 1 : Nat) : Int)] := by
  unfold partRange
  have e1 : (((n + 1 : Nat) : Int) + 1 - 1).toNat = n + 1 := by omega
  have e2 : ((n : Int) + 1 - 1).toNat = n := by omega
  rw [e1, e2, List.range_succ, List.map_append]
  simp
  omega

/-- The uploads of a run whose last upload is for part `pn` are the parts `1, ..., pn`. -/
theorem uploadPartNumbers_of_last {σ : Type} (svc : Store) (bucket : String) (f : File σ)
    (file : σ) (hdr : FileHeader) (ns : List Int) (pn : Int)
    (h : uploadPartNumbers (uploadHandler svc bucket f (some (file, hdr))).trace = ns ++ [pn]) :
    1 ≤ pn ∧ pn ≤ numParts hdr.size ∧
      uploadPartNumbers (uploadHandler svc bucket f (some (file, hdr))).trace
        = partRange 1 pn := by
  obtain ⟨_, _, _, h4, _⟩ := uploadHandler_loop_facts svc bucket f file hdr
  rw [h] at h4
  have hmem : pn ∈ partRange 1 (numParts hdr.size) := by
    apply List.mem_of_mem_take (n := (ns ++ [pn]).length)
    rw [← h4]
    simp
  have hb := mem_partRange hmem
  have hlen : (ns ++ [pn]).length ≤ (numParts hdr.size).toNat := by
    have := congrArg List.length h4
    rw [List.length_take, partRange_length] at this
    omega
  have hle : (((ns ++ [pn]).length : Nat) : Int) ≤ numParts hdr.size := by omega
  rw [take_partRange _ _ hle] at h4
  have hl : (ns ++ [pn]).length = ns.length + 1 := by simp
  rw [hl, partRange_last] at h4
  have h5 := List.append_inj_right' h4 rfl
  simp only [List.cons.injEq, and_true] at h5
  refine ⟨hb.1, hb.2, ?_⟩
  rw [h, h4, h5, ← partRange_last]

/-! ## The claims -/

/-- C6: in every run of the handler, a call that fails (CreateMultipartUpload, a read, an
UploadPart or CompleteMultipartUpload) is the last call of the run, so no UploadPart or
CompleteMultipartUpload follows it, and the response is an error with status 500.  When the
initiation fails it is the only call: nothing is read and no part is uploaded.  When a read
or a part upload fails, CompleteMultipartUpload is never called. -/
theorem C6_failure_is_terminal {σ : Type} (svc : Store) (bucket : String) (f : File σ)
    (form : Option (σ × FileHeader)) :
    (∀ pre e suf, (uploadHandler svc bucket f form).trace = pre ++ e :: suf →
      e.failed = true →
      suf = [] ∧ ∃ msg, (uploadHandler svc bucket f form).response = Response.error msg 500) ∧
    (∀ b k, Event.createMultipartUpload b k none ∈ (uploadHandler svc bucket f form).trace →
      (uploadHandler svc bucket f form).trace = [Event.createMultipartUpload b k none] ∧
      readResults (uploadHandler svc bucket f form).trace = [] ∧
      uploadBodies (uploadHandler svc bucket f form).trace = [] ∧
      completeCalls (uploadHandler svc bucket f form).trace = []) ∧
    (∀ e ∈ (uploadHandler svc bucket f form).trace, e.failed = true → e.isTransfer = true →
      completeCalls (uploadHandler svc bucket f form).trace = []) := by
  refine ⟨fun pre e suf ht hf => failed_is_last svc bucket f form pre suf e ht hf, ?_,
    fun e he hf ht => no_complete_of_failed_transfer svc bucket f form e he hf ht⟩
  intro b k hmem
  cases form with
  | none =>
    rw [uploadHandler_none] at hmem
    simp at hmem
  | some fh =>
    obtain ⟨file, hdr⟩ := fh
    cases hc : svc.createMultipartUpload bucket hdr.filename with
    | none =>
      rw [uploadHandler_create_failed svc bucket f file hdr hc] at hmem ⊢
      simp only [List.mem_singleton, Event.createMultipartUpload.injEq, and_true] at hmem
      obtain ⟨hb, hk⟩ := hmem
      subst hb
      subst hk
      simp [readResults, uploadBodies, completeCalls]
    | some uid =>
      exfalso
      obtain ⟨pre, suf, hsplit⟩ := List.append_of_mem hmem
      have hsuf := (failed_is_last svc bucket f (some (file, hdr)) pre suf _ hsplit rfl).1
      subst hsuf
      obtain ⟨h, heq⟩ := uploadHandler_created svc bucket f file hdr uid hc
      rw [heq] at hsplit
      obtain ⟨body, last, ht, _, hl, _, _⟩ :=
        uploadLoop_decomp svc f bucket hdr.filename uid (numParts hdr.size)
          (numParts hdr.size).toNat 1 h file []
      rw [after_trace, ht] at hsplit
      have h2 : (Event.createMultipartUpload bucket hdr.filename (some uid) :: body) ++ [last]
          = pre ++ [Event.createMultipartUpload b k none] := by
        simpa using hsplit
      have h3 := List.append_inj_right' h2 rfl
      simp only [List.cons.injEq, and_true] at h3
      subst h3
      simp [Event.isComplete, Event.isTransfer] at hl

/-- C6 at a run in which the upload of part 1 fails: the failed call is the third and last
call, and the response is an error with status 500. -/
theorem C6_failure_is_terminal_witness :
    (uploadHandler (failAtStore 1) "bucket" dribbleFile (some (1, ⟨"a.txt", 1⟩))).trace.map
        Event.failed = [false, false, true] ∧
    ∃ msg, (uploadHandler (failAtStore 1) "bucket" dribbleFile
      (some (1, ⟨"a.txt", 1⟩))).response = Response.error msg 500 := by
  have hmap : (uploadHandler (failAtStore 1) "bucket" dribbleFile
      (some (1, ⟨"a.txt", 1⟩))).trace.map Event.failed = [false, false, true] := by decide
  refine ⟨hmap, ?_⟩
  obtain ⟨e, he, hf⟩ : ∃ e ∈ (uploadHandler (failAtStore 1) "bucket" dribbleFile
      (some (1, ⟨"a.txt", 1⟩))).trace, e.failed = true := by
    have : true ∈ (uploadHandler (failAtStore 1) "bucket" dribbleFile
        (some (1, ⟨"a.txt", 1⟩))).trace.map Event.failed := by
      rw [hmap]
      simp
    simpa using this
  obtain ⟨pre, suf, hsplit⟩ := List.append_of_mem he
  exact ((C6_failure_is_terminal (failAtStore 1) "bucket" dribbleFile
    (some (1, ⟨"a.txt", 1⟩))).1 pre e suf hsplit hf).2

/-- C7: the handler answers with the redirect to /confirmation (status 303) if and only if
the form was parsed, CreateMultipartUpload succeeded, the run consists of the create, one
read and one UploadPart for each part 1, ..., numParts and the completion, and none of these
calls failed.  A run in which any call failed answers with an error, never with the
redirect. -/
theorem C7_success_iff_all_succeeded {σ : Type} (svc : Store) (bucket : String) (f : File σ)
    (form : Option (σ × FileHeader)) :
    ((uploadHandler svc bucket f form).response = Response.redirect "/confirmation" 303 ↔
      ∃ file hdr uid, form = some (file, hdr) ∧
        svc.createMultipartUpload bucket hdr.filename = some uid ∧
        (uploadHandler svc bucket f form).trace.map Event.op
          = expectedOps bucket hdr.filename uid (numParts hdr.size) ∧
        ∀ e ∈ (uploadHandler svc bucket f form).trace, e.failed = false) ∧
    (∀ e ∈ (uploadHandler svc bucket f form).trace, e.failed = true →
      ∃ msg, (uploadHandler svc bucket f form).response = Response.error msg 500) := by
  constructor
  · constructor
    · intro hs
      cases form with
      | none =>
        rw [uploadHandler_none] at hs
        simp at hs
      | some fh =>
        obtain ⟨file, hdr⟩ := fh
        obtain ⟨uid, hc, hcc, hall⟩ := uploadHandler_success svc bucket f file hdr hs
        exact ⟨file, hdr, uid, rfl, hc,
          (uploadHandler_reaches_complete svc bucket f file hdr uid hc hcc).1, hall⟩
    · rintro ⟨file, hdr, uid, hform, _, _, hall⟩
      subst hform
      obtain ⟨body, last, hb, _, _, _, hf2⟩ := uploadHandler_decomp svc bucket f file hdr
      have hlf : last.failed = false := hall last (by rw [hb]; simp)
      exact (hf2 hlf).2
  · intro e he hf
    obtain ⟨pre, suf, hsplit⟩ := List.append_of_mem he
    exact (failed_is_last svc bucket f form pre suf e hsplit hf).2

/-- C7 at two runs: with a store whose calls all succeed the one-part upload is answered
with the redirect, and its calls are create, read, upload of part 1, complete; with a store
that fails the upload of part 1 it is not. -/
theorem C7_success_iff_all_succeeded_witness :
    ((uploadHandler okStore "bucket" dribbleFile (some (1, ⟨"a.txt", 1⟩))).response
        = Response.redirect "/confirmation" 303 ∧
      ∃ file hdr uid, some ((1 : Nat), (⟨"a.txt", 1⟩ : FileHeader)) = some (file, hdr) ∧
        okStore.createMultipartUpload "bucket" hdr.filename = some uid ∧
        (uploadHandler okStore "bucket" dribbleFile (some (1, ⟨"a.txt", 1⟩))).trace.map Event.op
          = expectedOps "bucket" hdr.filename uid (numParts hdr.size) ∧
        ∀ e ∈ (uploadHandler okStore "bucket" dribbleFile
          (some (1, ⟨"a.txt", 1⟩))).trace, e.failed = false) ∧
    (uploadHandler (failAtStore 1) "bucket" dribbleFile (some (1, ⟨"a.txt", 1⟩))).response
        ≠ Response.redirect "/confirmation" 303 := by
  have h1 : (uploadHandler okStore "bucket" dribbleFile (some (1, ⟨"a.txt", 1⟩))).response
      = Response.redirect "/confirmation" 303 := by decide
  refine ⟨⟨h1, (C7_success_iff_all_succeeded okStore "bucket" dribbleFile
    (some (1, ⟨"a.txt", 1⟩))).1.mp h1⟩, ?_⟩
  decide

/-- C4 as stated fails: with one part (N = 1) whose upload fails (k = 1) the handler makes
three calls, a create, a read and the failed upload, and none of them is an
AbortMultipartUpload, where the claim demands exactly one. -/
theorem C4_counterexample_no_abort :
    (uploadHandler (failAtStore 1) "bucket" dribbleFile (some (1, ⟨"a.txt", 1⟩))).trace.map
        Event.op
      = [Op.createMultipartUpload "bucket" "a.txt", Op.read,
          Op.uploadPart "bucket" "a.txt" "upload-1" 1] ∧
    (uploadHandler (failAtStore 1) "bucket" dribbleFile (some (1, ⟨"a.txt", 1⟩))).trace.map
        Event.failed = [false, false, true] ∧
    numParts 1 = 1 ∧
    abortCalls (uploadHandler (failAtStore 1) "bucket" dribbleFile
      (some (1, ⟨"a.txt", 1⟩))).trace = 0 := by
  decide

/-- C4, amended: when the UploadPart call for part k fails, then 1 ≤ k ≤ numParts, the
uploads attempted are those of the parts 1, ..., k, and the failed call is the last call of
the run: no further UploadPart, no read and no CompleteMultipartUpload follow.  The handler
makes no AbortMultipartUpload call at all, and it answers with an error of status 500. -/
theorem C4_upload_failure_stops_without_abort {σ : Type} (svc : Store) (bucket : String)
    (f : File σ) (file : σ) (hdr : FileHeader) (pre suf : List Event)
    (b k u : String) (pn : Int) (body : List Byte)
    (ht : (uploadHandler svc bucket f (some (file, hdr))).trace
      = pre ++ Event.uploadPart b k u pn body none :: suf) :
    suf = [] ∧
    abortCalls (uploadHandler svc bucket f (some (file, hdr))).trace = 0 ∧
    completeCalls (uploadHandler svc bucket f (some (file, hdr))).trace = [] ∧
    (1 ≤ pn ∧ pn ≤ numParts hdr.size) ∧
    uploadPartNumbers (uploadHandler svc bucket f (some (file, hdr))).trace
      = partRange 1 pn ∧
    ∃ msg, (uploadHandler svc bucket f (some (file, hdr))).response
      = Response.error msg 500 := by
  have h1 := failed_is_last svc bucket f (some (file, hdr)) pre suf _ ht rfl
  have hsuf := h1.1
  subst hsuf
  have hup : uploadPartNumbers (uploadHandler svc bucket f (some (file, hdr))).trace
      = uploadPartNumbers pre ++ [pn] := by
    rw [ht]
    simp [uploadPartNumbers]
  obtain ⟨g1, g2, g3⟩ := uploadPartNumbers_of_last svc bucket f file hdr _ pn hup
  refine ⟨rfl, uploadHandler_no_abort svc bucket f (some (file, hdr)), ?_, ⟨g1, g2⟩, g3, h1.2⟩
  exact no_complete_of_failed_transfer svc bucket f (some (file, hdr))
    (Event.uploadPart b k u pn body none) (by rw [ht]; simp) rfl rfl

/-- C4, amended, at the run with one part whose upload fails: the failed upload of part 1 is
the last call, there is no abort and no completion. -/
theorem C4_upload_failure_stops_without_abort_witness :
    abortCalls (uploadHandler (failAtStore 1) "bucket" dribbleFile
      (some (1, ⟨"a.txt", 1⟩))).trace = 0 ∧
    completeCalls (uploadHandler (failAtStore 1) "bucket" dribbleFile
      (some (1, ⟨"a.txt", 1⟩))).trace = [] ∧
    uploadPartNumbers (uploadHandler (failAtStore 1) "bucket" dribbleFile
      (some (1, ⟨"a.txt", 1⟩))).trace = [1] := by
  have ht : (uploadHandler (failAtStore 1) "bucket" dribbleFile
      (some (1, ⟨"a.txt", 1⟩))).trace
      = [Event.createMultipartUpload "bucket" "a.txt" (some "upload-1"),
          Event.read (dribbleFile.read 1 partBuffer).1]
        ++ Event.uploadPart "bucket" "a.txt" "upload-1" 1
            ((dribbleFile.read 1 partBuffer).1.buf.take (dribbleFile.read 1 partBuffer).1.n)
            none :: [] := rfl
  have key := C4_upload_failure_stops_without_abort (failAtStore 1) "bucket" dribbleFile
    1 ⟨"a.txt", 1⟩ _ [] "bucket" "a.txt" "upload-1" 1 _ ht
  have e1 : partRange 1 1 = [1] := by decide
  rw [e1] at key
  exact ⟨key.2.1, key.2.2.1, key.2.2.2.2.1⟩

/-- C5 as stated fails: for a 0-byte file (declaredSize 0) and a store whose calls succeed,
the handler starts a multipart upload, uploads no part, and calls CompleteMultipartUpload
once with the empty part list. -/
theorem C5_counterexample_empty_part_list :
    numParts 0 = 0 ∧
    (uploadHandler okStore "bucket" zeroFile (some (0, ⟨"empty.txt", 0⟩))).trace
      = [Event.createMultipartUpload "bucket" "empty.txt" (some "upload-1"),
          Event.completeMultipartUpload "bucket" "empty.txt" "upload-1" [] true] ∧
    uploadBodies (uploadHandler okStore "bucket" zeroFile
      (some (0, ⟨"empty.txt", 0⟩))).trace = [] ∧
    completeCalls (uploadHandler okStore "bucket" zeroFile
      (some (0, ⟨"empty.txt", 0⟩))).trace = [[]] := by
  decide

/-- C5, amended: for declaredSize 0 the handler computes zero parts; it reads nothing and
uploads no part, and once CreateMultipartUpload has succeeded it calls
CompleteMultipartUpload exactly once, with the empty part list, right after the create. -/
theorem C5_zero_size_completes_with_no_parts {σ : Type} (svc : Store) (bucket : String)
    (f : File σ) (file : σ) (hdr : FileHeader) (uid : String) (hsize : hdr.size = 0)
    (hc : svc.createMultipartUpload bucket hdr.filename = some uid) :
    (uploadHandler svc bucket f (some (file, hdr))).trace
      = [Event.createMultipartUpload bucket hdr.filename (some uid),
          Event.completeMultipartUpload bucket hdr.filename uid []
            (svc.completeMultipartUpload bucket hdr.filename uid [])] ∧
    readResults (uploadHandler svc bucket f (some (file, hdr))).trace = [] ∧
    uploadBodies (uploadHandler svc bucket f (some (file, hdr))).trace = [] ∧
    completeCalls (uploadHandler svc bucket f (some (file, hdr))).trace = [[]] := by
  obtain ⟨h, heq⟩ := uploadHandler_created svc bucket f file hdr uid hc
  have hn : numParts hdr.size = 0 := by
    rw [hsize]
    decide
  have hg : ¬ (1 : Int) ≤ numParts hdr.size := by
    rw [hn]
    decide
  rw [heq, uploadLoop_exit svc f bucket hdr.filename uid _ _ 1 h file [] hg]
  simp [readResults, uploadBodies, completeCalls]

/-- C5, amended, at a 0-byte upload to a store whose calls succeed. -/
theorem C5_zero_size_completes_with_no_parts_witness :
    (uploadHandler okStore "bucket" zeroFile (some (0, ⟨"empty.txt", 0⟩))).trace
      = [Event.createMultipartUpload "bucket" "empty.txt" (some "upload-1"),
          Event.completeMultipartUpload "bucket" "empty.txt" "upload-1" [] true] :=
  (C5_zero_size_completes_with_no_parts okStore "bucket" zeroFile 0 ⟨"empty.txt", 0⟩
    "upload-1" rfl rfl).1

/-- C10: every run of the handler calls CompleteMultipartUpload at most once, and in every
successful run (the redirect is the response) the calls are exactly: one
CreateMultipartUpload; then, for partNumber = 1, ..., numParts in ascending order, one read
followed by one UploadPart with that part number and the upload id and key of the session;
then one CompleteMultipartUpload with the same upload id and key.  So each read precedes its
upload and each upload precedes the next read.  That is numParts + 2 store calls, for every
declared size the form parser can report: `header.Size` counts the bytes `FormFile` stored,
so it is not negative and `Size + partSize - 1` is representable as int64. -/
theorem C10_successful_run_sequence {σ : Type} (svc : Store) (bucket : String) (f : File σ)
    (file : σ) (hdr : FileHeader) :
    (completeCalls (uploadHandler svc bucket f (some (file, hdr))).trace).length ≤ 1 ∧
    ((uploadHandler svc bucket f (some (file, hdr))).response
        = Response.redirect "/confirmation" 303 →
      ∃ uid, svc.createMultipartUpload bucket hdr.filename = some uid ∧
        (uploadHandler svc bucket f (some (file, hdr))).trace.map Event.op
          = Op.createMultipartUpload bucket hdr.filename ::
            ((partRange 1 (numParts hdr.size)).flatMap
                (fun pn => [Op.read, Op.uploadPart bucket hdr.filename uid pn])
              ++ [Op.completeMultipartUpload bucket hdr.filename uid]) ∧
        (storeCalls (uploadHandler svc bucket f (some (file, hdr))).trace).length
          = (numParts hdr.size).toNat + 2 ∧
        (0 ≤ hdr.size → hdr.size + partSize - 1 ≤ int64Max →
          ((storeCalls (uploadHandler svc bucket f (some (file, hdr))).trace).length : Int)
            = numParts hdr.size + 2) ∧
        (completeCalls (uploadHandler svc bucket f (some (file, hdr))).trace).length = 1) := by
  refine ⟨completeCalls_length_le svc bucket f (some (file, hdr)), ?_⟩
  intro hs
  obtain ⟨uid, hc, hcc, _⟩ := uploadHandler_success svc bucket f file hdr hs
  obtain ⟨hops, _, h3, h4, _, _⟩ :=
    uploadHandler_reaches_complete svc bucket f file hdr uid hc hcc
  refine ⟨uid, hc, hops, h3, ?_, by rw [h4]; rfl⟩
  intro h0 hrep
  have hn := numParts_of_bounds hdr.size h0 hrep
  rw [h3]
  omega

/-- C10 at a one-part upload to a store whose calls succeed: the redirect is the response
and the calls are create, read, upload of part 1, complete: numParts + 2 = 3 store calls. -/
theorem C10_successful_run_sequence_witness :
    (uploadHandler okStore "bucket" dribbleFile (some (1, ⟨"a.txt", 1⟩))).response
      = Response.redirect "/confirmation" 303 ∧
    numParts 1 = 1 ∧
    ∃ uid, okStore.createMultipartUpload "bucket" "a.txt" = some uid ∧
      (uploadHandler okStore "bucket" dribbleFile (some (1, ⟨"a.txt", 1⟩))).trace.map Event.op
        = Op.createMultipartUpload "bucket" "a.txt" ::
          ((partRange 1 (numParts 1)).flatMap
              (fun pn => [Op.read, Op.uploadPart "bucket" "a.txt" uid pn])
            ++ [Op.completeMultipartUpload "bucket" "a.txt" uid]) ∧
      ((storeCalls (uploadHandler okStore "bucket" dribbleFile
        (some (1, ⟨"a.txt", 1⟩))).trace).length : Int) = numParts 1 + 2 ∧
      (completeCalls (uploadHandler okStore "bucket" dribbleFile
        (some (1, ⟨"a.txt", 1⟩))).trace).length = 1 := by
  obtain ⟨uid, h1, h2, _, h4, h5⟩ :=
    (C10_successful_run_sequence okStore "bucket" dribbleFile 1 ⟨"a.txt", 1⟩).2 (by decide)
  exact ⟨by decide, by decide, uid, h1, h2, h4 (by decide) (by decide), h5⟩

/-- C2: in every run, at the top of the loop iteration for part number k the list
completedParts holds exactly the part numbers 1, ..., k - 1 in that order; and after every
successful run the list submitted to CompleteMultipartUpload has the part numbers
1, ..., numParts (ascending, without duplicates or gaps, starting at 1) and pairs each part
number with the eTag the store returned for the UploadPart call of that part.  Its length is
the computed numParts, for every declared size the form parser can report: `header.Size`
counts the bytes `FormFile` stored, so it is not negative and `Size + partSize - 1` is
representable as int64. -/
theorem C2_completed_parts_contiguous {σ : Type} (svc : Store) (bucket : String)
    (f : File σ) (file : σ) (hdr : FileHeader) :
    (∀ it ∈ (uploadHandler svc bucket f (some (file, hdr))).iterations,
      it.2.map CompletedPart.partNumber = partRange 1 (it.1 - 1)) ∧
    ((uploadHandler svc bucket f (some (file, hdr))).response
        = Response.redirect "/confirmation" 303 →
      ∃ parts, completeCalls (uploadHandler svc bucket f (some (file, hdr))).trace = [parts] ∧
        parts.map CompletedPart.partNumber = partRange 1 (numParts hdr.size) ∧
        (parts.map CompletedPart.partNumber).Pairwise (· < ·) ∧
        parts.length = (numParts hdr.size).toNat ∧
        (0 ≤ hdr.size → hdr.size + partSize - 1 ≤ int64Max →
          (parts.length : Int) = numParts hdr.size) ∧
        parts = uploadedParts (uploadHandler svc bucket f (some (file, hdr))).trace ∧
        ∀ p ∈ parts, ∃ b k u body, Event.uploadPart b k u p.partNumber body (some p.eTag)
          ∈ (uploadHandler svc bucket f (some (file, hdr))).trace) := by
  refine ⟨fun it hit => ((uploadHandler_loop_facts svc bucket f file hdr).1 it hit).2, ?_⟩
  intro hs
  obtain ⟨uid, hc, hcc, _⟩ := uploadHandler_success svc bucket f file hdr hs
  obtain ⟨_, _, _, h4, h5, _⟩ :=
    uploadHandler_reaches_complete svc bucket f file hdr uid hc hcc
  have hlen : (uploadedParts (uploadHandler svc bucket f (some (file, hdr))).trace).length
      = (numParts hdr.size).toNat := by
    have := congrArg List.length h5
    rw [List.length_map, partRange_length] at this
    rw [this]
    congr 1
    omega
  refine ⟨_, h4, h5, ?_, hlen, ?_, rfl, fun p hp => mem_uploadedParts hp⟩
  · rw [h5]
    exact partRange_pairwise _ _
  · intro h0 hrep
    have hn := numParts_of_bounds hdr.size h0 hrep
    rw [hlen]
    omega

/-- C2 at a two-part upload (5 MiB + 1 bytes declared) to a store whose calls succeed: the
loop ran with completedParts holding no part and then part 1, and the list submitted on
completion is part 1 with its tag followed by part 2 with its tag, of length numParts = 2. -/
theorem C2_completed_parts_contiguous_witness :
    (uploadHandler okStore "bucket" dribbleFile
      (some (5242881, ⟨"a.bin", 5242881⟩))).iterations
      = [(1, []), (2, [⟨"etag-1", 1⟩])] ∧
    (uploadHandler okStore "bucket" dribbleFile (some (5242881, ⟨"a.bin", 5242881⟩))).response
      = Response.redirect "/confirmation" 303 ∧
    numParts 5242881 = 2 ∧
    ∃ parts, completeCalls (uploadHandler okStore "bucket" dribbleFile
        (some (5242881, ⟨"a.bin", 5242881⟩))).trace = [parts] ∧
      parts.map CompletedPart.partNumber = partRange 1 (numParts 5242881) ∧
      (parts.map CompletedPart.partNumber).Pairwise (· < ·) ∧
      (parts.length : Int) = numParts 5242881 ∧
      parts = uploadedParts (uploadHandler okStore "bucket" dribbleFile
        (some (5242881, ⟨"a.bin", 5242881⟩))).trace ∧
      ∀ p ∈ parts, ∃ b k u body, Event.uploadPart b k u p.partNumber body (some p.eTag)
        ∈ (uploadHandler okStore "bucket" dribbleFile
          (some (5242881, ⟨"a.bin", 5242881⟩))).trace := by
  obtain ⟨parts, h1, h2, h3, _, h5, h6, h7⟩ :=
    (C2_completed_parts_contiguous okStore "bucket" dribbleFile 5242881
      ⟨"a.bin", 5242881⟩).2 (by decide)
  exact ⟨by decide, by decide, by decide, parts, h1, h2, h3,
    h5 (by decide) (by decide), h6, h7⟩

/-- C8: for every declaredSize s with 0 ≤ s and s + partSize - 1 representable as int64, the
part count computed by the handler is (s + partSize - 1) / partSize under truncating
division without any wrap-around, and it equals ceil(s / partSize): it is the least n ≥ 0
with n * partSize ≥ s, and it is 0 exactly when s = 0.  The loop body runs for the part
numbers 1, 2, ... in order and never beyond numParts, and a run that reaches the completion
has run it for exactly 1, ..., numParts. -/
theorem C8_numParts_is_ceiling (s : Int) (h0 : 0 ≤ s) (hrep : s + partSize - 1 ≤ int64Max) :
    numParts s = Int.tdiv (s + partSize - 1) partSize ∧
    numParts s = ⌈(s : ℚ) / (partSize : ℚ)⌉ ∧
    (0 ≤ numParts s ∧ s ≤ numParts s * partSize ∧
      ∀ n : Int, 0 ≤ n → s ≤ n * partSize → numParts s ≤ n) ∧
    (numParts s = 0 ↔ s = 0) ∧
    (∀ (σ : Type) (svc : Store) (bucket : String) (f : File σ) (file : σ) (name : String),
      (uploadHandler svc bucket f (some (file, ⟨name, s⟩))).iterations.map Prod.fst
        = (partRange 1 (numParts s)).take
          (uploadHandler svc bucket f (some (file, ⟨name, s⟩))).iterations.length ∧
      (completeCalls (uploadHandler svc bucket f (some (file, ⟨name, s⟩))).trace ≠ [] →
        (uploadHandler svc bucket f (some (file, ⟨name, s⟩))).iterations.map Prod.fst
          = partRange 1 (numParts s))) := by
  have hn := numParts_of_bounds s h0 hrep
  refine ⟨?_, ?_, ?_, ?_, ?_⟩
  · rw [hn, partSize_eq, Int.tdiv_eq_ediv (by omega) (by norm_num)]
    congr 1
    omega
  · rw [hn]
    exact (ceil_of_bounds s _ (by omega) (by omega)).symm
  · rw [hn, partSize_eq]
    refine ⟨by omega, by omega, ?_⟩
    intro n _ hle
    omega
  · rw [hn]
    constructor <;> intro h <;> omega
  · intro σ svc bucket f file name
    refine ⟨(uploadHandler_loop_facts svc bucket f file ⟨name, s⟩).2.1, ?_⟩
    intro hcc
    cases hc : svc.createMultipartUpload bucket name with
    | none =>
      rw [uploadHandler_create_failed svc bucket f file ⟨name, s⟩ hc] at hcc
      simp [completeCalls] at hcc
    | some uid =>
      exact (uploadHandler_reaches_complete svc bucket f file ⟨name, s⟩ uid hc hcc).2.1

/-- C8 at a declared size of 12 MiB: three parts, and the loop body runs for 1, 2, 3. -/
theorem C8_numParts_is_ceiling_witness :
    numParts 12582912 = 3 ∧ ⌈((12582912 : Int) : ℚ) / (partSize : ℚ)⌉ = 3 ∧
    (uploadHandler okStore "bucket" dribbleFile
      (some (12582912, ⟨"a.bin", 12582912⟩))).iterations.map Prod.fst = [1, 2, 3] := by
  have key := C8_numParts_is_ceiling 12582912 (by decide) (by decide)
  have h3 : numParts 12582912 = 3 := by decide
  refine ⟨h3, ?_, by decide⟩
  rw [← key.2.1, h3]

/-- C3: in every run in which no read returns an error, the body of each UploadPart call is
exactly the bytes its read returned, the first bytesRead bytes of the buffer; so the bodies,
which are uploaded in ascending part-number order 1, 2, ..., concatenate to the bytes
consumed from the source, in order, with nothing dropped, duplicated or padded.  For a
source whose successful reads return the next bytes of a stream `content`, that
concatenation is an initial segment of the stream. -/
theorem C3_bodies_are_bytes_read {σ : Type} (svc : Store) (bucket : String) (f : File σ)
    (file : σ) (hdr : FileHeader)
    (hok : ∀ r ∈ readResults (uploadHandler svc bucket f (some (file, hdr))).trace,
      r.err = false) :
    uploadBodies (uploadHandler svc bucket f (some (file, hdr))).trace
      = (readResults (uploadHandler svc bucket f (some (file, hdr))).trace).map
        (fun r => r.buf.take r.n) ∧
    (uploadBodies (uploadHandler svc bucket f (some (file, hdr))).trace).flatten
      = ((readResults (uploadHandler svc bucket f (some (file, hdr))).trace).map
        (fun r => r.buf.take r.n)).flatten ∧
    uploadPartNumbers (uploadHandler svc bucket f (some (file, hdr))).trace
      = (partRange 1 (numParts hdr.size)).take
        (uploadBodies (uploadHandler svc bucket f (some (file, hdr))).trace).length ∧
    (∀ content : σ → List Byte,
      (∀ s p, (f.read s p).1.err = false →
        content s = (f.read s p).1.buf.take (f.read s p).1.n ++ content (f.read s p).2) →
      ∃ rest, content file
        = (uploadBodies (uploadHandler svc bucket f (some (file, hdr))).trace).flatten
          ++ rest) := by
  obtain ⟨_, _, _, h4, h5⟩ := uploadHandler_loop_facts svc bucket f file hdr
  have hfilter : (readResults (uploadHandler svc bucket f (some (file, hdr))).trace).filter
      (fun r => !r.err) = readResults (uploadHandler svc bucket f (some (file, hdr))).trace := by
    rw [List.filter_eq_self]
    intro r hr
    simp [hok r hr]
  rw [hfilter] at h5
  have h6 : uploadBodies (uploadHandler svc bucket f (some (file, hdr))).trace
      = (readResults (uploadHandler svc bucket f (some (file, hdr))).trace).map
        (fun r => r.buf.take r.n) := h5
  refine ⟨h6, by rw [h6], ?_,
    fun content hcontent => uploadHandler_bodies_of_content svc bucket f file hdr content
      hcontent⟩
  rw [← uploadPartNumbers_length]
  exact h4

/-- C3 at a two-part upload from a source that delivers one byte per read: no read fails,
and the two bodies are the two single bytes read. -/
theorem C3_bodies_are_bytes_read_witness :
    (∀ r ∈ readResults (uploadHandler okStore "bucket" dribbleFile
      (some (5242881, ⟨"a.bin", 5242881⟩))).trace, r.err = false) ∧
    uploadBodies (uploadHandler okStore "bucket" dribbleFile
      (some (5242881, ⟨"a.bin", 5242881⟩))).trace = [[0], [0]] ∧
    uploadBodies (uploadHandler okStore "bucket" dribbleFile
      (some (5242881, ⟨"a.bin", 5242881⟩))).trace
      = (readResults (uploadHandler okStore "bucket" dribbleFile
        (some (5242881, ⟨"a.bin", 5242881⟩))).trace).map (fun r => r.buf.take r.n) :=
  ⟨by decide, by decide,
    (C3_bodies_are_bytes_read okStore "bucket" dribbleFile 5242881 ⟨"a.bin", 5242881⟩
      (by decide)).1⟩

/-- C9 as stated fails: from a source that delivers one byte per read and still holds more
than 5 MiB, the handler reads once per part and uploads part 1, a non-final part, with one
byte instead of partSize bytes. -/
theorem C9_counterexample_short_reads :
    numParts 5242881 = 2 ∧ partSize = 5242880 ∧
    (readResults (uploadHandler okStore "bucket" dribbleFile
      (some (5242881, ⟨"a.bin", 5242881⟩))).trace).length = 2 ∧
    uploadPartNumbers (uploadHandler okStore "bucket" dribbleFile
      (some (5242881, ⟨"a.bin", 5242881⟩))).trace = [1, 2] ∧
    (uploadBodies (uploadHandler okStore "bucket" dribbleFile
      (some (5242881, ⟨"a.bin", 5242881⟩))).trace).map List.length = [1, 1] := by
  decide

/-- C9, amended: for every source stream the handler performs exactly one read per loop
iteration, never a second one for the same part, and uploads exactly the bytes that single
read returned; the size of every uploaded part is therefore the number of bytes its one read
returned, which is partSize only when that read filled the buffer. -/
theorem C9_single_read_per_part {σ : Type} (svc : Store) (bucket : String) (f : File σ)
    (file : σ) (hdr : FileHeader) :
    (readResults (uploadHandler svc bucket f (some (file, hdr))).trace).length
      = (uploadHandler svc bucket f (some (file, hdr))).iterations.length ∧
    uploadBodies (uploadHandler svc bucket f (some (file, hdr))).trace
      = ((readResults (uploadHandler svc bucket f (some (file, hdr))).trace).filter
          (fun r => !r.err)).map (fun r => r.buf.take r.n) ∧
    (uploadBodies (uploadHandler svc bucket f (some (file, hdr))).trace).map List.length
      = ((readResults (uploadHandler svc bucket f (some (file, hdr))).trace).filter
          (fun r => !r.err)).map (fun r => min r.n r.buf.length) := by
  obtain ⟨_, _, h3, _, h5⟩ := uploadHandler_loop_facts svc bucket f file hdr
  have h6 : uploadBodies (uploadHandler svc bucket f (some (file, hdr))).trace
      = ((readResults (uploadHandler svc bucket f (some (file, hdr))).trace).filter
          (fun r => !r.err)).map (fun r => r.buf.take r.n) := h5
  refine ⟨h3, h6, ?_⟩
  rw [h6, List.map_map]
  apply List.map_congr_left
  intro r _
  simp

/-- C1: for every source of length L ≥ 1 with declaredSize = L whose every read fills the
buffer unless the stream ends, and for a store whose calls all succeed, the handler uploads
exactly n = ceil(L / partSize) parts, numbered 1, ..., n in that order: every part before
the last has exactly partSize bytes and the last has L - (n - 1) * partSize bytes, which is
between 1 and partSize and equals partSize exactly when partSize divides L.  The run is the
create, one read and one upload per part, and then one CompleteMultipartUpload that lists
the parts 1, ..., n with the tags the store returned; the response is the redirect.  The
length L is one the form parser can report as `header.Size`: it counts bytes that `FormFile`
stored, so `L + partSize - 1` is representable as int64. -/
theorem C1_full_reads_upload_ceil_parts {σ : Type} (svc : Store) (bucket : String)
    (f : File σ) (remaining : σ → Nat) (file : σ) (hdr : FileHeader) (L : Nat)
    (hf : FillsBuffer f remaining) (hL : remaining file = L) (hpos : 1 ≤ L)
    (hsize : hdr.size = (L : Int)) (hrep : (L : Int) + partSize - 1 ≤ int64Max)
    (hs : StoreSucceeds svc) :
    (uploadBodies (uploadHandler svc bucket f (some (file, hdr))).trace).map List.length
      = List.replicate (⌈(L : ℚ) / (partSize : ℚ)⌉₊ - 1) partSize.toNat
        ++ [L - (⌈(L : ℚ) / (partSize : ℚ)⌉₊ - 1) * partSize.toNat] ∧
    (1 ≤ L - (⌈(L : ℚ) / (partSize : ℚ)⌉₊ - 1) * partSize.toNat ∧
      L - (⌈(L : ℚ) / (partSize : ℚ)⌉₊ - 1) * partSize.toNat ≤ partSize.toNat) ∧
    (L - (⌈(L : ℚ) / (partSize : ℚ)⌉₊ - 1) * partSize.toNat = partSize.toNat ↔
      partSize.toNat ∣ L) ∧
    uploadPartNumbers (uploadHandler svc bucket f (some (file, hdr))).trace
      = partRange 1 (⌈(L : ℚ) / (partSize : ℚ)⌉₊ : Int) ∧
    (∃ uid, (uploadHandler svc bucket f (some (file, hdr))).trace.map Event.op
      = Op.createMultipartUpload bucket hdr.filename ::
        ((partRange 1 (⌈(L : ℚ) / (partSize : ℚ)⌉₊ : Int)).flatMap
            (fun pn => [Op.read, Op.uploadPart bucket hdr.filename uid pn])
          ++ [Op.completeMultipartUpload bucket hdr.filename uid])) ∧
    completeCalls (uploadHandler svc bucket f (some (file, hdr))).trace
      = [uploadedParts (uploadHandler svc bucket f (some (file, hdr))).trace] ∧
    (uploadedParts (uploadHandler svc bucket f (some (file, hdr))).trace).map
      CompletedPart.partNumber = partRange 1 (⌈(L : ℚ) / (partSize : ℚ)⌉₊ : Int) ∧
    (uploadHandler svc bucket f (some (file, hdr))).response
      = Response.redirect "/confirmation" 303 := by
  obtain ⟨uid, hc⟩ := Option.isSome_iff_exists.mp (hs.create bucket hdr.filename)
  have hnp : numParts hdr.size = (((L + 5242879) / 5242880 : Nat) : Int) := by
    rw [hsize, numParts_of_bounds (L : Int) (by omega) hrep]
    omega
  have hceil : ⌈(L : ℚ) / (partSize : ℚ)⌉₊ = (L + 5242879) / 5242880 :=
    natCeil_of_bounds L _ (by omega) (by omega)
  have hps : partSize.toNat = 5242880 := by
    rw [partSize_eq]
    rfl
  rw [hceil, hps]
  generalize hn : (L + 5242879) / 5242880 = n at hnp
  have hn1 : (n - 1) * 5242880 < L ∧ L ≤ n * 5242880 := by omega
  have hn0 : n ≠ 0 := by omega
  obtain ⟨h, heq⟩ := uploadHandler_created svc bucket f file hdr uid hc
  obtain ⟨h1, h2, h3⟩ := uploadLoop_full_reads svc f remaining hf hs bucket hdr.filename uid
    (numParts hdr.size) (numParts hdr.size).toNat 1 h file [] n (by omega)
    (fun _ => by rw [hL]; exact hn1)
  have hcc : completeCalls (uploadHandler svc bucket f (some (file, hdr))).trace ≠ [] := by
    rw [heq]
    simpa [completeCalls] using h3
  obtain ⟨g1, _, _, g4, g5, g6⟩ :=
    uploadHandler_reaches_complete svc bucket f file hdr uid hc hcc
  rw [hnp] at g1 g5 g6
  refine ⟨?_, by omega, by omega, g6, ⟨uid, g1⟩, g4, g5, ?_⟩
  · rw [heq]
    have hb : uploadBodies ((uploadLoop svc f bucket hdr.filename uid (numParts hdr.size)
        (numParts hdr.size).toNat 1 h file []).after
          [Event.createMultipartUpload bucket hdr.filename (some uid)] []).trace
        = uploadBodies (uploadLoop svc f bucket hdr.filename uid (numParts hdr.size)
          (numParts hdr.size).toNat 1 h file []).trace := by
      simp [uploadBodies]
    rw [hb, h1, if_neg hn0, hL]
  · rw [heq]
    simpa using h2

/-- C1 at the 12 MiB scenario: a source of 12 MiB whose reads fill the buffer gives three
parts of 5 MiB, 5 MiB and 2 MiB, numbered 1, 2, 3, followed by one CompleteMultipartUpload
that lists the parts 1, 2, 3 with the tags the store returned. -/
theorem C1_full_reads_upload_ceil_parts_witness :
    (uploadBodies (uploadHandler okStore "bucket" zeroFile
      (some (12582912, ⟨"a.bin", 12582912⟩))).trace).map List.length
      = [5242880, 5242880, 2097152] ∧
    uploadPartNumbers (uploadHandler okStore "bucket" zeroFile
      (some (12582912, ⟨"a.bin", 12582912⟩))).trace = [1, 2, 3] ∧
    completeCalls (uploadHandler okStore "bucket" zeroFile
      (some (12582912, ⟨"a.bin", 12582912⟩))).trace
      = [uploadedParts (uploadHandler okStore "bucket" zeroFile
        (some (12582912, ⟨"a.bin", 12582912⟩))).trace] ∧
    (uploadedParts (uploadHandler okStore "bucket" zeroFile
      (some (12582912, ⟨"a.bin", 12582912⟩))).trace).map CompletedPart.partNumber
      = [1, 2, 3] := by
  have key := C1_full_reads_upload_ceil_parts okStore "bucket" zeroFile (fun s => s)
    12582912 ⟨"a.bin", 12582912⟩ 12582912 zeroFile_fillsBuffer rfl (by decide) rfl
    (by decide) okStore_succeeds
  have hceil : ⌈((12582912 : Nat) : ℚ) / (partSize : ℚ)⌉₊ = 3 :=
    natCeil_of_bounds 12582912 3 (by decide) (by decide)
  rw [hceil] at key
  have e1 : List.replicate (3 - 1) partSize.toNat ++ [12582912 - (3 - 1) * partSize.toNat]
      = [5242880, 5242880, 2097152] := by decide
  have e2 : partRange 1 ((3 : Nat) : Int) = [1, 2, 3] := by decide
  rw [e1, e2] at key
  exact ⟨key.1, key.2.2.2.1, key.2.2.2.2.2.1, key.2.2.2.2.2.2.1⟩

end BucketUpload
